import Mathlib

/-!
Verification development for the kube-ai log subsystem
(`pkg/k8s/logs/collector.go` and `pkg/k8s/logs/parser.go`).

Go strings are modelled as `List Char`, `time.Time` values as `Int`
nanoseconds since the epoch, Go float64 arithmetic as exact `ℚ`, Go maps as
insertion-ordered association lists, and fallible calls as `Option`-carrying
results.  The Kubernetes client collaborator is abstracted as a `Cluster`
record mapping names to streams / pod lists, and context cancellation as the
iteration index at which `ctx.Done()` becomes signalled.
-/

set_option maxRecDepth 16384

namespace KubeAI

attribute [local semireducible] Rat.mul Rat.add Rat.sub Rat.inv

/-- Go `string`, modelled as a list of runes. -/
abbrev Str := List Char

/-- Embed a Lean string literal as a `Str`. -/
def str (s : String) : Str := s.toList

/-- Index of the first occurrence of character `c` (Go `strings.IndexByte`). -/
def indexOfChar (c : Char) : Str → Option Nat
  | [] => none
  | x :: t => if x = c then some 0 else (indexOfChar c t).map (· + 1)

/-- Index of the first occurrence of `pat` as a substring (Go `strings.Index`). -/
def indexOfSubstr : Str → Str → Option Nat
  | s, pat =>
    if pat.isPrefixOf s then some 0
    else
      match s with
      | [] => none
      | _ :: t => (indexOfSubstr t pat).map (· + 1)

/-- Go `strings.Contains`. -/
def containsStr (s pat : Str) : Bool := (indexOfSubstr s pat).isSome

/-- Go `strings.ToLower` (ASCII fragment, as exercised by this code base). -/
def lowerStr (s : Str) : Str := s.map Char.toLower

/-- Go `strings.TrimSuffix(line, "\n")`: drop one trailing newline. -/
def trimNewline (l : Str) : Str :=
  if l.getLast? = some '\n' then l.dropLast else l

/-- Go `strings.Split(s, " ")`: split on single spaces, keeping empty fields. -/
def splitOnSpace (s : Str) : List Str := s.splitOn ' '

/-- Go `strings.Join(parts, " ")`. -/
def joinSpace (parts : List Str) : Str := List.intercalate [' '] parts

/-- Decimal digit test (byte-range comparison, as Go's parser does). -/
def isDigitChar (c : Char) : Bool := decide (48 ≤ c.toNat ∧ c.toNat ≤ 57)

def digitVal (c : Char) : Nat := c.toNat - 48

/-! ### RFC3339 timestamp parsing (model of Go `time.Parse(time.RFC3339, s)`) -/

/-- A parsed RFC3339 timestamp (field values as written, before conversion). -/
structure DateTime where
  year : Nat
  month : Nat
  day : Nat
  hour : Nat
  minute : Nat
  second : Nat
  frac : Str
  offNeg : Bool
  offH : Nat
  offM : Nat
deriving DecidableEq

/-- Consume exactly `n` decimal digits, returning their value and the rest. -/
def readDigits : Nat → Str → Option (Nat × Str)
  | 0, s => some (0, s)
  | _ + 1, [] => none
  | n + 1, c :: r =>
    if isDigitChar c then (readDigits n r).map (fun p => (digitVal c * 10 ^ n + p.1, p.2))
    else none

/-- Consume one expected character. -/
def readChar (c : Char) : Str → Option Str
  | [] => none
  | x :: r => if x = c then some r else none

/-- Optional fractional seconds of `time.Parse`: `.` or `,` followed by at
least one digit (greedy).  Go's `Parse` documents (since Go 1.17) that either
a comma or a decimal point followed by a maximal run of digits is parsed as a
fractional second even when the layout has no fraction: the RFC3339 fast path
only takes `.`, but on failure `Parse` falls back to the general parser,
whose `commaOrPeriod` branch also accepts `,`. -/
def readFrac (s : Str) : Str × Str :=
  match s with
  | c :: r =>
    if c = '.' ∨ c = ',' then
      if r.takeWhile isDigitChar = [] then ([], c :: r)
      else (r.takeWhile isDigitChar, r.dropWhile isDigitChar)
    else ([], c :: r)
  | [] => ([], [])

/-- Time zone: `Z` or `±hh:mm` (hh ≤ 23, mm ≤ 59). -/
def readOffset (s : Str) : Option (Bool × Nat × Nat × Str) :=
  match s with
  | c :: r =>
    if c = 'Z' then some (false, 0, 0, r)
    else if c = '+' ∨ c = '-' then
      match readDigits 2 r with
      | some (oh, r2) =>
        match r2 with
        | c2 :: r3 =>
          if c2 = ':' then
            match readDigits 2 r3 with
            | some (om, r4) =>
              if oh ≤ 23 ∧ om ≤ 59 then some (c = '-', oh, om, r4) else none
            | none => none
          else none
        | [] => none
      | none => none
    else none
  | [] => none

def isLeapYear (y : Nat) : Bool := y % 4 = 0 ∧ (y % 100 ≠ 0 ∨ y % 400 = 0)

def daysInMonth (y m : Nat) : Nat :=
  if m = 2 then (if isLeapYear y then 29 else 28)
  else if m = 4 ∨ m = 6 ∨ m = 9 ∨ m = 11 then 30
  else 31

/-- Model of `time.Parse(time.RFC3339, s)`:
`yyyy-mm-ddThh:mm:ss[(.|,)f+](Z|±hh:mm)`, with calendar range checks,
consuming the whole string.  Each step consumes
part of the input: `p1 = (year, rest)`, `p2 = (month, rest)`, `p3 = (day,
rest)`, `p4 = (hour, rest)`, `p5 = (minute, rest)`, `p6 = (second, rest)`,
`q = (zoneNegative, zoneH, zoneM, rest)`. -/
def rfc3339Parse (s : Str) : Option DateTime :=
  (readDigits 4 s).bind fun p1 =>
  (readChar '-' p1.2).bind fun s2 =>
  (readDigits 2 s2).bind fun p2 =>
  (readChar '-' p2.2).bind fun s4 =>
  (readDigits 2 s4).bind fun p3 =>
  (readChar 'T' p3.2).bind fun s6 =>
  (readDigits 2 s6).bind fun p4 =>
  (readChar ':' p4.2).bind fun s8 =>
  (readDigits 2 s8).bind fun p5 =>
  (readChar ':' p5.2).bind fun s10 =>
  (readDigits 2 s10).bind fun p6 =>
  (readOffset (readFrac p6.2).2).bind fun q =>
  if q.2.2.2 = [] ∧ 1 ≤ p2.1 ∧ p2.1 ≤ 12 ∧ 1 ≤ p3.1 ∧ p3.1 ≤ daysInMonth p1.1 p2.1 ∧
      p4.1 ≤ 23 ∧ p5.1 ≤ 59 ∧ p6.1 ≤ 59 then
    some ⟨p1.1, p2.1, p3.1, p4.1, p5.1, p6.1, (readFrac p6.2).1, q.1, q.2.1, q.2.2.1⟩
  else none

/-- Days since 1970-01-01 of a civil date (Howard Hinnant's algorithm;
`/` on `Int` is floor division here since all divisors are positive). -/
def daysFromCivil (y m d : Int) : Int :=
  let yy := if m ≤ 2 then y - 1 else y
  let era := yy / 400
  let yoe := yy - era * 400
  let mp := if m > 2 then m - 3 else m + 9
  let doy := (153 * mp + 2) / 5 + d - 1
  let doe := yoe * 365 + yoe / 4 - yoe / 100 + doy
  era * 146097 + doe - 719468

/-- Nanoseconds contributed by the fractional-second digits (first 9 count). -/
def fracToNs (frac : Str) : Nat :=
  let ds := frac.take 9
  (ds.foldl (fun a c => a * 10 + digitVal c) 0) * 10 ^ (9 - ds.length)

/-- Convert a parsed RFC3339 timestamp to epoch nanoseconds (model of the
`time.Time` value produced by `time.Parse`). -/
def toNs (T : DateTime) : Int :=
  let days := daysFromCivil (T.year : Int) (T.month : Int) (T.day : Int)
  let offSec : Int := (if T.offNeg then -1 else 1) * ((T.offH : Int) * 3600 + (T.offM : Int) * 60)
  ((days * 86400 + (T.hour : Int) * 3600 + (T.minute : Int) * 60 + (T.second : Int)) - offSec)
      * 1000000000 + (fracToNs T.frac : Int)

/-! ### Log line parsing (`parseLogLine`, `extractStructuredData`) -/

/-- Model of `LogEntry` (timestamps as epoch nanoseconds, the `Data` map as an
insertion-ordered association list). -/
structure LogEntry where
  timestamp : Int
  podName : Str
  containerName : Str
  logLevel : Str
  content : Str
  data : List (Str × Str)
deriving DecidableEq

/-- Go map assignment `m[k] = v` (update in place, else append). -/
def mapInsert (m : List (Str × Str)) (k v : Str) : List (Str × Str) :=
  match m with
  | [] => [(k, v)]
  | (k1, v1) :: r => if k1 = k then (k, v) :: r else (k1, v1) :: mapInsert r k v

/-- Go `strings.Trim(s, cutset)`. -/
def trimCutset (cut : List Char) (s : Str) : Str :=
  ((s.dropWhile (· ∈ cut)).reverse.dropWhile (· ∈ cut)).reverse

/-- `extractStructuredData`: `key=value` tokens of the content, split on the
first `=`, both sides trimmed of quote characters. -/
def extractStructuredData (content : Str) : List (Str × Str) :=
  (splitOnSpace content).foldl
    (fun m part =>
      match indexOfChar '=' part with
      | some i =>
        mapInsert m (trimCutset [ '"', '\'' ] (part.take i))
          (trimCutset [ '"', '\'' ] (part.drop (i + 1)))
      | none => m)
    []

def levelCandidates : List Str :=
  [str "DEBUG", str "INFO", str "WARN", str "WARNING", str "ERROR", str "FATAL"]

/-- Level extraction of `parseLogLine`: first candidate in the fixed order that
occurs (case-sensitive), else the case-insensitive heuristic. -/
def levelOf (line : Str) : Str :=
  match levelCandidates.find? (fun lvl => containsStr line lvl) with
  | some lvl => lvl
  | none =>
    let lowerLine := lowerStr line
    if containsStr lowerLine (str "error") || containsStr lowerLine (str "exception")
        || containsStr lowerLine (str "fail") then str "ERROR"
    else if containsStr lowerLine (str "warn") then str "WARN"
    else str "INFO"

/-- Timestamp extraction of `parseLogLine`: when the text before the first
space (at index > 0) parses as RFC3339, the timestamp is set and the local
`line` variable is advanced past it; otherwise the default `now` is kept and
nothing is consumed. -/
def timestampSplit (now : Int) (line : Str) : Int × Str :=
  match indexOfChar ' ' line with
  | some i =>
    if 0 < i then
      match rfc3339Parse (line.take i) with
      | some T => (toNs T, line.drop (i + 1))
      | none => (now, line)
    else (now, line)
  | none => (now, line)

/-- `parseLogLine(line, podName, containerName)`.  `Content` is assigned the
whole trimmed line at construction;  the timestamp consumption only affects the
local variable used for level scanning. -/
def parseLogLine (now : Int) (rawLine pod cont : Str) : LogEntry :=
  let line := trimNewline rawLine
  let ts := timestampSplit now line
  { timestamp := ts.1
    podName := pod
    containerName := cont
    logLevel := levelOf ts.2
    content := line
    data := extractStructuredData line }

/-! ### Log collection (`collector.go`) -/

/-- How a log byte stream ends: EOF with a last partial chunk, or a read error. -/
inductive StreamEnd where
  | eofEnd (rest : Str)
  | readErr
deriving DecidableEq

/-- The sequence of chunks `bufio.Reader.ReadString('\n')` yields for one pod:
full lines (each ending in `'\n'`), then the terminal event. -/
structure PodStream where
  lines : List Str
  fin : StreamEnd
deriving DecidableEq

/-- The distinct error values produced by the collector. -/
inductive CollectErr where
  | streamOpen
  | readStream
  | volumeExceeded
  | unsupportedKind
  | getWorkload
  | noLogsFound
deriving DecidableEq

structure LogOptions where
  resourceType : Str
  resourceName : Str
  container : Str
  follow : Bool
deriving DecidableEq

/-- The cluster-client collaborator: per-pod stream open results and the
deployment/statefulset name → matching-pod-list resolution (`none` = the
workload lookup or pod listing failed). -/
structure Cluster where
  podStream : Str → Option PodStream
  deployments : Str → Option (List Str)
  statefulsets : Str → Option (List Str)

/-- Context cancellation: `ctx.Done()` is signalled from loop iteration `c` on. -/
def ctxDone : Option Nat → Nat → Bool
  | none, _ => false
  | some c, i => c ≤ i

/-- The read loop of `GetPodLogs`: check cancellation, read a chunk, parse and
append it, and enforce the 10,000-record cap for non-follow collection. -/
def collectLoop (follow : Bool) (cancelAt : Option Nat) (now : Int) (pod cont : Str) :
    List Str → StreamEnd → Nat → List LogEntry → List LogEntry × Option CollectErr
  | lines, fin, i, acc =>
    if ctxDone cancelAt i then (acc, none)
    else
      match lines with
      | [] =>
        match fin with
        | .eofEnd lastPart =>
          if lastPart ≠ [] then (acc ++ [parseLogLine now lastPart pod cont], none)
          else (acc, none)
        | .readErr => (acc, some .readStream)
      | l :: rest =>
        let acc2 := acc ++ [parseLogLine now l pod cont]
        if follow = false ∧ 10000 < acc2.length then (acc2, some .volumeExceeded)
        else collectLoop follow cancelAt now pod cont rest fin (i + 1) acc2

/-- `GetPodLogs`: open the stream for the named pod and run the read loop. -/
def GetPodLogs (c : Cluster) (cancelAt : Option Nat) (now : Int) (o : LogOptions) :
    List LogEntry × Option CollectErr :=
  match c.podStream o.resourceName with
  | none => ([], some .streamOpen)
  | some st => collectLoop o.follow cancelAt now o.resourceName o.container st.lines st.fin 0 []

/-- The per-pod options used inside `getLogsFromPods`. -/
def podOptions (o : LogOptions) (pod : Str) : LogOptions :=
  { o with resourceType := str "pod", resourceName := pod }

/-- `getLogsFromPods`: read each pod in order, skipping pods whose read
errored (their partial entries are discarded with a printed warning); fail
with the no-logs-found error when nothing at all was collected. -/
def getLogsFromPods (c : Cluster) (cancelAt : Option Nat) (now : Int)
    (pods : List Str) (o : LogOptions) : List LogEntry × Option CollectErr :=
  let allLogs := pods.foldl
    (fun acc pod =>
      let r := GetPodLogs c cancelAt now (podOptions o pod)
      match r.2 with
      | some _ => acc
      | none => acc ++ r.1)
    []
  if allLogs.length = 0 then ([], some .noLogsFound) else (allLogs, none)

/-- `getDeploymentLogs`: resolve the deployment selector to pods, then collect. -/
def getDeploymentLogs (c : Cluster) (cancelAt : Option Nat) (now : Int) (o : LogOptions) :
    List LogEntry × Option CollectErr :=
  match c.deployments o.resourceName with
  | none => ([], some .getWorkload)
  | some pods => getLogsFromPods c cancelAt now pods o

/-- `getStatefulSetLogs`: resolve the statefulset selector to pods, then collect. -/
def getStatefulSetLogs (c : Cluster) (cancelAt : Option Nat) (now : Int) (o : LogOptions) :
    List LogEntry × Option CollectErr :=
  match c.statefulsets o.resourceName with
  | none => ([], some .getWorkload)
  | some pods => getLogsFromPods c cancelAt now pods o

/-- `GetResourceLogs`: dispatch on the resource type (with the `deploy` and
`sts` aliases), failing with the unsupported-resource-type error otherwise. -/
def GetResourceLogs (c : Cluster) (cancelAt : Option Nat) (now : Int) (o : LogOptions) :
    List LogEntry × Option CollectErr :=
  if o.resourceType = str "pod" then GetPodLogs c cancelAt now o
  else if o.resourceType = str "deployment" ∨ o.resourceType = str "deploy" then
    getDeploymentLogs c cancelAt now o
  else if o.resourceType = str "statefulset" ∨ o.resourceType = str "sts" then
    getStatefulSetLogs c cancelAt now o
  else ([], some .unsupportedKind)

/-- The dispatch targets of `StreamLogs`. -/
inductive StreamDispatch where
  | pod
  | deployment
  | statefulset
  | unsupported
deriving DecidableEq

/-- The type switch at the top of `StreamLogs` (no aliases here): which
per-kind streaming routine handles the request, or the unsupported error. -/
def streamLogsDispatch (resourceType : Str) : StreamDispatch :=
  if resourceType = str "pod" then .pod
  else if resourceType = str "deployment" then .deployment
  else if resourceType = str "statefulset" then .statefulset
  else .unsupported

/-! ### Message normalization (`normalizeLogMessage`)

Each Go `regexp.ReplaceAllString` call is modelled by a deterministic
match-at-position function plus a generic leftmost, non-overlapping
replace-all driver.  The driver carries the previous original character so the
`\b` word boundaries of the bare-integer pattern can be evaluated. -/

/-- RE2 word characters (for `\b`). -/
def isWordChar (c : Char) : Bool :=
  isDigitChar c || decide ('a' ≤ c ∧ c ≤ 'z') || decide ('A' ≤ c ∧ c ≤ 'Z') || c = '_'

/-- RE2 `\s` = `[\t\n\f\r ]`, also the characters `strings.TrimSpace` trims here. -/
def isSpaceGo (c : Char) : Bool :=
  c = ' ' || c = '\t' || c = '\n' || c = '\x0c' || c = '\r'

/-- Lowercase hexadecimal digit, `[0-9a-f]`. -/
def isHexLower (c : Char) : Bool := isDigitChar c || decide ('a' ≤ c ∧ c ≤ 'f')

/-- Optional `(Z|[+-]\d{2}:\d{2})?` of the timestamp regex (greedy, no range
checks); returns the rest, consuming nothing when the group fails. -/
def readOffsetRegex (s : Str) : Str :=
  match s with
  | 'Z' :: r => r
  | c :: r =>
    if c = '+' ∨ c = '-' then
      match readDigits 2 r with
      | some (_, ':' :: r3) =>
        match readDigits 2 r3 with
        | some (_, r4) => r4
        | none => s
      | _ => s
    else s
  | [] => s

/-- Optional `(\.\d+)?` of the timestamp regex: unlike `time.Parse`, the
regular expression accepts only the decimal point as separator. -/
def readFracDot (s : Str) : Str × Str :=
  match s with
  | c :: r =>
    if c = '.' then
      if r.takeWhile isDigitChar = [] then ([], c :: r)
      else (r.takeWhile isDigitChar, r.dropWhile isDigitChar)
    else ([], c :: r)
  | [] => ([], [])

/-- Length matched at this position by
`\d{4}-\d{2}-\d{2}T\d{2}:\d{2}:\d{2}(\.\d+)?(Z|[+-]\d{2}:\d{2})?`. -/
def tsRegexMatchAt (s : Str) : Option Nat := do
  let p1 ← readDigits 4 s
  let s2 ← readChar '-' p1.2
  let p2 ← readDigits 2 s2
  let s3 ← readChar '-' p2.2
  let p3 ← readDigits 2 s3
  let s4 ← readChar 'T' p3.2
  let p4 ← readDigits 2 s4
  let s5 ← readChar ':' p4.2
  let p5 ← readDigits 2 s5
  let s6 ← readChar ':' p5.2
  let p6 ← readDigits 2 s6
  let rest := readOffsetRegex (readFracDot p6.2).2
  some (s.length - rest.length)

/-- Consume exactly `n` lowercase hex digits. -/
def readHexN : Nat → Str → Option Str
  | 0, s => some s
  | _ + 1, [] => none
  | n + 1, c :: r => if isHexLower c then readHexN n r else none

/-- Length matched at this position by the UUID pattern
`[0-9a-f]{8}-[0-9a-f]{4}-[0-9a-f]{4}-[0-9a-f]{4}-[0-9a-f]{12}`. -/
def uuidMatchAt (s : Str) : Option Nat := do
  let s1 ← readHexN 8 s
  let s2 ← readChar '-' s1
  let s3 ← readHexN 4 s2
  let s4 ← readChar '-' s3
  let s5 ← readHexN 4 s4
  let s6 ← readChar '-' s5
  let s7 ← readHexN 4 s6
  let s8 ← readChar '-' s7
  let s9 ← readHexN 12 s8
  some (s.length - s9.length)

/-- `\d{1,3}\.` — greedy with the only viable backtracking (an interior octet
followed by a literal dot leaves no downstream choice). -/
def octetDot (s : Str) : Option Str :=
  ((readDigits 3 s).bind fun p => readChar '.' p.2) <|>
  ((readDigits 2 s).bind fun p => readChar '.' p.2) <|>
  ((readDigits 1 s).bind fun p => readChar '.' p.2)

/-- Trailing `\d{1,3}` of the IP pattern (greedy). -/
def lastOctet (s : Str) : Option Str :=
  (readDigits 3 s).map (·.2) <|> (readDigits 2 s).map (·.2) <|> (readDigits 1 s).map (·.2)

/-- Length matched at this position by `\d{1,3}\.\d{1,3}\.\d{1,3}\.\d{1,3}`. -/
def ipMatchAt (s : Str) : Option Nat := do
  let s1 ← octetDot s
  let s2 ← octetDot s1
  let s3 ← octetDot s2
  let s4 ← lastOctet s3
  some (s.length - s4.length)

/-- Length matched at this position by `\b\d+\b` (given the previous original
character for the left boundary). -/
def intMatchAt (prev : Option Char) (s : Str) : Option Nat :=
  let boundaryBefore := match prev with | none => true | some c => !isWordChar c
  if boundaryBefore then
    let ds := s.takeWhile isDigitChar
    if ds = [] then none
    else
      match (s.drop ds.length).head? with
      | none => some ds.length
      | some c => if isWordChar c then none else some ds.length
  else none

/-- Length matched at this position by `\s+` (greedy). -/
def wsMatchAt (s : Str) : Option Nat :=
  let ws := s.takeWhile isSpaceGo
  if ws = [] then none else some ws.length

/-- `regexp.ReplaceAllString`: scan left to right, replace each leftmost
non-overlapping match, and continue after it (tracking the last original
character as boundary context). -/
def replaceAllGo (matchAt : Option Char → Str → Option Nat) (repl : Str) :
    Nat → Option Char → Str → Str
  | 0, _, _ => []
  | _ + 1, _, [] => []
  | fuel + 1, prev, c :: rest =>
    match matchAt prev (c :: rest) with
    | some n =>
      repl ++ replaceAllGo matchAt repl fuel ((c :: rest).take n).getLast? (rest.drop (n - 1))
    | none => c :: replaceAllGo matchAt repl fuel (some c) rest

def replaceAll (matchAt : Option Char → Str → Option Nat) (repl : Str) (s : Str) : Str :=
  replaceAllGo matchAt repl s.length none s

/-- Go `strings.TrimSpace`. -/
def trimSpace (s : Str) : Str :=
  ((s.dropWhile isSpaceGo).reverse.dropWhile isSpaceGo).reverse

/-- `normalizeLogMessage`: delete timestamps, replace UUIDs, IP addresses and
bare integers with placeholder tokens, collapse whitespace, trim. -/
def normalizeLogMessage (message : Str) : Str :=
  let m1 := replaceAll (fun _ s => tsRegexMatchAt s) [] message
  let m2 := replaceAll (fun _ s => uuidMatchAt s) (str "UUID") m1
  let m3 := replaceAll (fun _ s => ipMatchAt s) (str "IP_ADDR") m2
  let m4 := replaceAll intMatchAt (str "N") m3
  let m5 := replaceAll (fun _ s => wsMatchAt s) [' '] m4
  trimSpace m5

/-! ### Pattern key extraction (`extractErrorKey`, `extractWarningKey`) -/

/-- The alternation of `errorRegex = (?i)(error|exception|failed|failure|fatal|panic)`,
in source order. -/
def errorKeywords : List Str :=
  [str "error", str "exception", str "failed", str "failure", str "fatal", str "panic"]

/-- The alternation of `warningRegex = (?i)(warning|warn|deprecated)`. -/
def warningKeywords : List Str :=
  [str "warning", str "warn", str "deprecated"]

/-- `regexp.FindString` for a case-insensitive alternation of literal words:
the leftmost match position together with the matched original-case slice
(alternatives tried in order at each position). -/
def findFirstCI (keys : List Str) : Str → Option (Nat × Str)
  | [] => none
  | c :: rest =>
    match keys.find? (fun k => k.isPrefixOf (lowerStr (c :: rest))) with
    | some k => some (0, (c :: rest).take k.length)
    | none => (findFirstCI keys rest).map (fun p => (p.1 + 1, p.2))

/-- Shared body of `extractErrorKey` / `extractWarningKey`: find the keyword
match, re-locate it with `strings.Index` on the lowercased message, and keep
10 space-separated words from there (else the first 10 words). -/
def extractKeyCore (keys : List Str) (message : Str) : Str :=
  match findFirstCI keys message with
  | some (_, found) =>
    match indexOfSubstr (lowerStr message) (lowerStr found) with
    | some keyStart => joinSpace ((splitOnSpace (message.drop keyStart)).take 10)
    | none => joinSpace ((splitOnSpace message).take 10)
  | none => joinSpace ((splitOnSpace message).take 10)

/-- `extractErrorKey`. -/
def extractErrorKey (message : Str) : Str := extractKeyCore errorKeywords message

/-- `extractWarningKey`. -/
def extractWarningKey (message : Str) : Str := extractKeyCore warningKeywords message

/-! ### Log analysis (`ParseLogs` and the issue detectors) -/

structure LogPattern where
  pattern : Str
  count : Nat
  examples : List LogEntry
deriving DecidableEq

structure ResourceErrorCount where
  resourceName : Str
  errorCount : Nat
deriving DecidableEq

/-- `LogTimeRange` (`Start`/`End`/`Duration`; `End` renamed, keyword). -/
structure LogTimeRange where
  startTime : Int
  endTime : Int
  duration : Int
deriving DecidableEq

structure LogSummary where
  totalEntries : Nat
  errorCount : Nat
  warningCount : Nat
  commonErrors : List LogPattern
  commonWarnings : List LogPattern
  errorHotspots : List ResourceErrorCount
  potentialIssues : List Str
  timeRange : LogTimeRange
deriving DecidableEq

/-- Go `m[k]++` on a count map, as an insertion-ordered association list. -/
def bump {α : Type} [DecidableEq α] (m : List (α × Nat)) (k : α) : List (α × Nat) :=
  match m with
  | [] => [(k, 1)]
  | (k1, v) :: r => if k1 = k then (k1, v + 1) :: r else (k1, v) :: bump r k

/-- The example bookkeeping of `ParseLogs`: keep the first 3 entries per key. -/
def addExample (m : List (Str × List LogEntry)) (k : Str) (e : LogEntry) :
    List (Str × List LogEntry) :=
  match m with
  | [] => [(k, [e])]
  | (k1, es) :: r =>
    if k1 = k then (if es.length < 3 then (k1, es ++ [e]) :: r else (k1, es) :: r)
    else (k1, es) :: addExample r k e

/-- Go map read `examplesMap[pattern]` (zero value `nil` when absent). -/
def lookupExamples (m : List (Str × List LogEntry)) (k : Str) : List LogEntry :=
  match m with
  | [] => []
  | (k1, es) :: r => if k1 = k then es else lookupExamples r k

/-- `convertToPatterns`: build the pattern slice, sort descending by count
(`sort.Slice`, here realized by insertion sort), keep the top 10. -/
def convertToPatterns (countMap : List (Str × Nat)) (examplesMap : List (Str × List LogEntry)) :
    List LogPattern :=
  let patterns := countMap.map (fun p => LogPattern.mk p.1 p.2 (lookupExamples examplesMap p.1))
  let sorted := patterns.insertionSort (fun a b => b.count ≤ a.count)
  sorted.take 10

/-- `convertToResourceErrors`: sort descending by error count, keep the top 5. -/
def convertToResourceErrors (resourceMap : List (Str × Nat)) : List ResourceErrorCount :=
  let resources := resourceMap.map (fun p => ResourceErrorCount.mk p.1 p.2)
  let sorted := resources.insertionSort (fun a b => b.errorCount ≤ a.errorCount)
  sorted.take 5

/-- `average` (sum as integers, then floating division, here exact `ℚ`). -/
def average (values : List Nat) : ℚ :=
  if values.length = 0 then 0
  else ((values.foldl (· + ·) 0 : Nat) : ℚ) / (values.length : ℚ)

/-- `standardDeviation` as written in the source: it accumulates the squared
deviations and divides by `n − 1`, but never takes a square root, so the value
returned is the Bessel-corrected sample variance. -/
def standardDeviation (values : List Nat) (avg : ℚ) : ℚ :=
  if values.length < 2 then 0
  else
    (values.foldl (fun acc v => acc + ((v : ℚ) - avg) * ((v : ℚ) - avg)) 0) /
      ((values.length : ℚ) - 1)

/-- `hasErrorSpikes`: bucket ERROR/FATAL records by truncated minute offset
from the first record, and flag when some populated bucket's count exceeds
`avg + 2 * stdDev` and 5 (with at least 100 records and 3 buckets). -/
def hasErrorSpikes (logs : List LogEntry) : Bool :=
  if logs.length < 100 then false
  else
    match logs with
    | [] => false
    | e0 :: _ =>
      let errorsByMinute := logs.foldl
        (fun m e =>
          if e.logLevel = str "ERROR" ∨ e.logLevel = str "FATAL" then
            bump m ((e.timestamp - e0.timestamp).tdiv 60000000000)
          else m)
        []
      let errorCounts := errorsByMinute.map (·.2)
      if errorCounts.length < 3 then false
      else
        let avg := average errorCounts
        let stdDev := standardDeviation errorCounts avg
        errorCounts.any (fun c => decide (avg + 2 * stdDev < (c : ℚ)) && decide (5 < c))

/-- `hasRepeatedRestarts`: more than 3 records mentioning container starts. -/
def hasRepeatedRestarts (logs : List LogEntry) : Bool :=
  let restartCount := logs.foldl
    (fun n e =>
      let content := lowerStr e.content
      if containsStr content (str "started container") ||
          containsStr content (str "starting container") ||
          containsStr content (str "restarting container") then n + 1
      else n)
    0
  3 < restartCount

/-- `hasResourceIssues`. -/
def hasResourceIssues (logs : List LogEntry) : Bool :=
  logs.any (fun e =>
    let content := lowerStr e.content
    containsStr content (str "out of memory") || containsStr content (str "oom killed") ||
      containsStr content (str "memory limit") || containsStr content (str "cpu throttling"))

/-- `hasNetworkIssues`. -/
def hasNetworkIssues (logs : List LogEntry) : Bool :=
  logs.any (fun e =>
    let content := lowerStr e.content
    containsStr content (str "connection refused") || containsStr content (str "connection timeout") ||
      containsStr content (str "unable to connect") || containsStr content (str "network error"))

/-- `hasAuthIssues`. -/
def hasAuthIssues (logs : List LogEntry) : Bool :=
  logs.any (fun e =>
    let content := lowerStr e.content
    containsStr content (str "unauthorized") || containsStr content (str "forbidden") ||
      containsStr content (str "permission denied") || containsStr content (str "access denied"))

/-- `detectIssues`. -/
def detectIssues (logs : List LogEntry) (summary : LogSummary) : List Str :=
  let issues : List Str := []
  let issues := if (1 : ℚ) / 10 < (summary.errorCount : ℚ) / (summary.totalEntries : ℚ) then
      issues ++ [str "High error rate detected in logs"] else issues
  let issues := if hasErrorSpikes logs then
      issues ++ [str "Error spikes detected - possible service disruption"] else issues
  let issues := if hasRepeatedRestarts logs then
      issues ++ [str "Pod restart pattern detected - possible crash loop"] else issues
  let issues := if hasResourceIssues logs then
      issues ++ [str "Resource constraint issues detected (OOM, CPU throttling)"] else issues
  let issues := if hasNetworkIssues logs then
      issues ++ [str "Network connectivity issues detected"] else issues
  let issues := if hasAuthIssues logs then
      issues ++ [str "Authentication or authorization issues detected"] else issues
  issues

/-- The per-entry folding state of `ParseLogs`. -/
structure ParseState where
  errorCount : Nat
  warningCount : Nat
  errorMap : List (Str × Nat)
  warningMap : List (Str × Nat)
  resourceErrorMap : List (Str × Nat)
  errorExamples : List (Str × List LogEntry)
  warningExamples : List (Str × List LogEntry)
  trStart : Int
  trEnd : Int

/-- One iteration of the analysis loop of `ParseLogs`: widen the time range,
then count / key / exemplify the entry according to its level. -/
def analyzeStep (st : ParseState) (e : LogEntry) : ParseState :=
  let st := { st with
    trStart := if e.timestamp < st.trStart then e.timestamp else st.trStart
    trEnd := if st.trEnd < e.timestamp then e.timestamp else st.trEnd }
  let content := normalizeLogMessage e.content
  if e.logLevel = str "ERROR" ∨ e.logLevel = str "FATAL" then
    let errorKey := extractErrorKey content
    { st with
      errorCount := st.errorCount + 1
      resourceErrorMap := bump st.resourceErrorMap e.podName
      errorMap := bump st.errorMap errorKey
      errorExamples := addExample st.errorExamples errorKey e }
  else if e.logLevel = str "WARN" ∨ e.logLevel = str "WARNING" then
    let warningKey := extractWarningKey content
    { st with
      warningCount := st.warningCount + 1
      warningMap := bump st.warningMap warningKey
      warningExamples := addExample st.warningExamples warningKey e }
  else st

/-- `ParseLogs`. -/
def ParseLogs (logs : List LogEntry) : LogSummary :=
  match logs with
  | [] => ⟨0, 0, 0, [], [], [], [], ⟨0, 0, 0⟩⟩
  | e0 :: _ =>
    let st := logs.foldl analyzeStep ⟨0, 0, [], [], [], [], [], e0.timestamp, e0.timestamp⟩
    let base : LogSummary :=
      { totalEntries := logs.length
        errorCount := st.errorCount
        warningCount := st.warningCount
        commonErrors := convertToPatterns st.errorMap st.errorExamples
        commonWarnings := convertToPatterns st.warningMap st.warningExamples
        errorHotspots := convertToResourceErrors st.resourceErrorMap
        potentialIssues := []
        timeRange := ⟨st.trStart, st.trEnd, st.trEnd - st.trStart⟩ }
    { base with potentialIssues := detectIssues logs base }

/-! ### C1: error-spike detection against the specified statistics

The specification asks for the Bessel-corrected sample *standard deviation*.
`specHasErrorSpikes` states the specified flag condition over exact rationals:
since the standard deviation is `√v` for the sample variance `v ≥ 0`, the
specified test `c > mean + 2·stddev` is equivalent to
`c > mean ∧ (c − mean)² > 4·v`, which avoids irrational square roots. -/

/-- The spike flag as the specification states it: at least 100 records, at
least 3 populated 1-minute bins (floor minute offsets from the first record's
timestamp), and some bin count that is greater than 5 and exceeds the mean
plus twice the Bessel-corrected sample standard deviation of the bin counts. -/
def specHasErrorSpikes (logs : List LogEntry) : Bool :=
  match logs with
  | [] => false
  | e0 :: _ =>
    decide (100 ≤ logs.length) &&
    (let bins := logs.foldl
        (fun m e =>
          if e.logLevel = str "ERROR" ∨ e.logLevel = str "FATAL" then
            bump m ((e.timestamp - e0.timestamp).fdiv 60000000000)
          else m)
        []
     let counts := bins.map (·.2)
     decide (3 ≤ counts.length) &&
     (let n : ℚ := counts.length
      let mean : ℚ := (counts.sum : ℚ) / n
      let sampleVar : ℚ := (counts.map (fun c => ((c : ℚ) - mean) * ((c : ℚ) - mean))).sum / (n - 1)
      counts.any (fun c =>
        decide (5 < c) && decide (mean < (c : ℚ)) &&
          decide (4 * sampleVar < ((c : ℚ) - mean) * ((c : ℚ) - mean)))))

/-- A minimal log entry at a given level and timestamp. -/
def mkEntry (lvl : Str) (t : Int) : LogEntry :=
  ⟨t, str "p", [], lvl, [], []⟩

/-- 100 records: one ERROR in each of minutes 0–8, twenty ERRORs in minute 9,
and 71 INFO records.  Bin counts `[1,…,1,20]`: mean `2.9`, sample variance
`36.1`, sample standard deviation `≈ 6.008`, so the specification flags the
bin of 20 (`20 > 2.9 + 2·6.008` and `20 > 5`), while the code compares `20`
against `2.9 + 2·36.1 = 75.1` because `standardDeviation` never takes the
square root, and does not flag. -/
def spikeLogs : List LogEntry :=
  ((List.range 9).map fun i => mkEntry (str "ERROR") ((i : Int) * 60000000000))
  ++ List.replicate 20 (mkEntry (str "ERROR") 540000000000)
  ++ List.replicate 71 (mkEntry (str "INFO") 0)

/-- **C1** (code bug): on `spikeLogs` the specified spike condition (mean plus
two sample standard deviations, Bessel-corrected) holds, yet `hasErrorSpikes`
returns `false`, because `standardDeviation` in the source returns the sample
variance (the square root is missing). -/
theorem c1_error_spike_divergence :
    specHasErrorSpikes spikeLogs = true ∧ hasErrorSpikes spikeLogs = false := by
  constructor <;> decide

/-! ### Behaviour of the batch-collection read loop -/

/-- The read loop only ever ends without error, with the read error, or with
the volume cap. -/
theorem collectLoop_err (follow : Bool) (cancelAt : Option Nat) (now : Int) (pod cont : Str) :
    ∀ (lines : List Str) (fin : StreamEnd) (i : Nat) (acc : List LogEntry),
      (collectLoop follow cancelAt now pod cont lines fin i acc).2 = none ∨
      (collectLoop follow cancelAt now pod cont lines fin i acc).2 = some .readStream ∨
      (collectLoop follow cancelAt now pod cont lines fin i acc).2 = some .volumeExceeded := by
  intro lines
  induction lines with
  | nil =>
    intro fin i acc
    rw [collectLoop.eq_def]
    cases hctx : ctxDone cancelAt i
    · cases fin with
      | eofEnd lastPart => by_cases hp : lastPart = [] <;> simp [hctx, hp]
      | readErr => simp [hctx]
    · simp [hctx]
  | cons l rest ih =>
    intro fin i acc
    rw [collectLoop.eq_def]
    cases hctx : ctxDone cancelAt i
    · by_cases hcap : follow = false ∧ 10000 < acc.length + 1
      · simp [hctx, hcap]
      · simpa [hctx, hcap] using ih fin (i + 1) (acc ++ [parseLogLine now l pod cont])
    · simp [hctx]

theorem collectLoop_cancel (now : Int) (pod cont : Str) :
    ∀ (k : Nat) (lines : List Str) (fin : StreamEnd) (i : Nat) (acc : List LogEntry),
      k ≤ lines.length → acc.length + k ≤ 10000 →
      collectLoop false (some (i + k)) now pod cont lines fin i acc =
        (acc ++ (lines.take k).map (fun l => parseLogLine now l pod cont), none) := by
  intro k
  induction k with
  | zero =>
    intro lines fin i acc _ _
    rw [collectLoop.eq_def]
    simp [ctxDone]
  | succ k ih =>
    intro lines fin i acc hlen hcap
    match lines with
    | [] => simp at hlen
    | l :: rest =>
      rw [collectLoop.eq_def]
      have hctx : ctxDone (some (i + (k + 1))) i = false := by
        simp [ctxDone]
      have hno : ¬ 10000 < acc.length + 1 := by omega
      simp only [hctx, Bool.false_eq_true, if_false]
      simp only [List.length_append, List.length_cons, List.length_nil, Nat.zero_add, hno,
        and_false, if_false]
      have harith : i + (k + 1) = (i + 1) + k := by omega
      rw [harith, ih rest fin (i + 1) (acc ++ [parseLogLine now l pod cont])
        (by simpa using hlen) (by simp; omega)]
      simp

theorem collectLoop_readErr (now : Int) (pod cont : Str) :
    ∀ (lines : List Str) (i : Nat) (acc : List LogEntry),
      acc.length + lines.length ≤ 10000 →
      collectLoop false none now pod cont lines .readErr i acc =
        (acc ++ lines.map (fun l => parseLogLine now l pod cont), some .readStream) := by
  intro lines
  induction lines with
  | nil =>
    intro i acc _
    rw [collectLoop.eq_def]
    simp [ctxDone]
  | cons l rest ih =>
    intro i acc h
    rw [collectLoop.eq_def]
    have hno : ¬ 10000 < acc.length + 1 := by simp at h; omega
    simp only [ctxDone, Bool.false_eq_true, if_false]
    simp only [List.length_append, List.length_cons, List.length_nil, Nat.zero_add, hno,
      and_false, if_false]
    rw [ih (i + 1) (acc ++ [parseLogLine now l pod cont]) (by simp at h ⊢; omega)]
    simp

theorem collectLoop_cap (now : Int) (pod cont : Str) :
    ∀ (lines : List Str) (fin : StreamEnd) (i : Nat) (acc : List LogEntry),
      acc.length ≤ 10000 → 10000 < acc.length + lines.length →
      collectLoop false none now pod cont lines fin i acc =
        (acc ++ (lines.take (10001 - acc.length)).map (fun l => parseLogLine now l pod cont),
          some .volumeExceeded) := by
  intro lines
  induction lines with
  | nil =>
    intro fin i acc h1 h2
    simp at h2
    omega
  | cons l rest ih =>
    intro fin i acc h1 h2
    rw [collectLoop.eq_def]
    simp only [ctxDone, Bool.false_eq_true, if_false]
    by_cases hc : acc.length = 10000
    · have hcap : 10000 < acc.length + 1 := by omega
      have h10 : 10001 - acc.length = 1 := by omega
      simp [hcap, h10]
    · have hno : ¬ 10000 < acc.length + 1 := by omega
      simp only [List.length_append, List.length_cons, List.length_nil, Nat.zero_add, hno,
        and_false, if_false]
      rw [ih fin (i + 1) (acc ++ [parseLogLine now l pod cont]) (by simp; omega)
        (by simp at h2 ⊢; omega)]
      have h10 : 10001 - acc.length = (10001 - (acc.length + 1)) + 1 := by omega
      rw [show (acc ++ [parseLogLine now l pod cont]).length = acc.length + 1 by simp, h10,
        List.take_succ_cons]
      simp

/-- `GetPodLogs` under cancellation at step `k`. -/
theorem GetPodLogs_cancel (cl : Cluster) (now : Int) (o : LogOptions) (st : PodStream) (k : Nat)
    (hf : o.follow = false) (hs : cl.podStream o.resourceName = some st)
    (hk : k ≤ st.lines.length) (hcap : k ≤ 10000) :
    GetPodLogs cl (some k) now o =
      ((st.lines.take k).map (fun l => parseLogLine now l o.resourceName o.container), none) := by
  have h := collectLoop_cancel now o.resourceName o.container k st.lines st.fin 0 [] hk
    (by simpa using hcap)
  simp only [GetPodLogs, hs, hf]
  simpa using h

/-- `GetPodLogs` on a stream that ends in a read error (cap not reached). -/
theorem GetPodLogs_readErr (cl : Cluster) (now : Int) (o : LogOptions) (lines : List Str)
    (hf : o.follow = false) (hs : cl.podStream o.resourceName = some ⟨lines, .readErr⟩)
    (hlen : lines.length ≤ 10000) :
    GetPodLogs cl none now o =
      (lines.map (fun l => parseLogLine now l o.resourceName o.container),
        some .readStream) := by
  have h := collectLoop_readErr now o.resourceName o.container lines 0 [] (by simpa using hlen)
  simp only [GetPodLogs, hs, hf]
  simpa using h

/-- `GetPodLogs` on a stream of more than 10,000 lines: volume cap. -/
theorem GetPodLogs_cap (cl : Cluster) (now : Int) (o : LogOptions) (st : PodStream)
    (hf : o.follow = false) (hs : cl.podStream o.resourceName = some st)
    (hlen : 10000 < st.lines.length) :
    GetPodLogs cl none now o =
      ((st.lines.take 10001).map (fun l => parseLogLine now l o.resourceName o.container),
        some .volumeExceeded) := by
  have h := collectLoop_cap now o.resourceName o.container st.lines st.fin 0 []
    (by simp) (by simpa using hlen)
  simp only [GetPodLogs, hs, hf]
  simpa using h

/-- `GetPodLogs` never reports the unsupported-kind error. -/
theorem GetPodLogs_ne_unsupported (cl : Cluster) (cancelAt : Option Nat) (now : Int)
    (o : LogOptions) : (GetPodLogs cl cancelAt now o).2 ≠ some CollectErr.unsupportedKind := by
  simp only [GetPodLogs]
  cases hs : cl.podStream o.resourceName with
  | none => simp
  | some st =>
    rcases collectLoop_err o.follow cancelAt now o.resourceName o.container st.lines st.fin 0 []
      with h | h | h <;> simp [h]

/-- The fold inside `getLogsFromPods` concatenates, in pod order, exactly the
records of the pods whose reads succeeded. -/
theorem getLogsFromPods_foldl (cl : Cluster) (cancelAt : Option Nat) (now : Int) (o : LogOptions) :
    ∀ (pods : List Str) (acc : List LogEntry),
      pods.foldl
        (fun acc pod =>
          let r := GetPodLogs cl cancelAt now (podOptions o pod)
          match r.2 with
          | some _ => acc
          | none => acc ++ r.1) acc
      = acc ++ (pods.map (fun p =>
          let r := GetPodLogs cl cancelAt now (podOptions o p)
          if r.2 = none then r.1 else [])).flatten := by
  intro pods
  induction pods with
  | nil => intro acc; simp
  | cons p rest ih =>
    intro acc
    simp only [List.foldl_cons, List.map_cons, List.flatten_cons]
    rw [ih]
    cases hr : (GetPodLogs cl cancelAt now (podOptions o p)).2 <;> simp [hr, List.append_assoc]

/-- `getLogsFromPods` either succeeds or reports only the no-logs-found error. -/
theorem getLogsFromPods_err (cl : Cluster) (cancelAt : Option Nat) (now : Int)
    (pods : List Str) (o : LogOptions) :
    (getLogsFromPods cl cancelAt now pods o).2 = none ∨
    (getLogsFromPods cl cancelAt now pods o).2 = some CollectErr.noLogsFound := by
  simp only [getLogsFromPods]
  split <;> simp

/-- `getDeploymentLogs` never reports the unsupported-kind error. -/
theorem getDeploymentLogs_ne_unsupported (cl : Cluster) (cancelAt : Option Nat) (now : Int)
    (o : LogOptions) :
    (getDeploymentLogs cl cancelAt now o).2 ≠ some CollectErr.unsupportedKind := by
  simp only [getDeploymentLogs]
  cases hd : cl.deployments o.resourceName with
  | none => simp
  | some pods =>
    rcases getLogsFromPods_err cl cancelAt now pods o with h | h <;> simp [h]

/-- `getStatefulSetLogs` never reports the unsupported-kind error. -/
theorem getStatefulSetLogs_ne_unsupported (cl : Cluster) (cancelAt : Option Nat) (now : Int)
    (o : LogOptions) :
    (getStatefulSetLogs cl cancelAt now o).2 ≠ some CollectErr.unsupportedKind := by
  simp only [getStatefulSetLogs]
  cases hd : cl.statefulsets o.resourceName with
  | none => simp
  | some pods =>
    rcases getLogsFromPods_err cl cancelAt now pods o with h | h <;> simp [h]

/-- A single-pod collection whose only read errors yields no-logs-found. -/
theorem getLogsFromPods_single_err (cl : Cluster) (cancelAt : Option Nat) (now : Int)
    (p : Str) (o : LogOptions) (e : CollectErr)
    (h : (GetPodLogs cl cancelAt now (podOptions o p)).2 = some e) :
    getLogsFromPods cl cancelAt now [p] o = ([], some CollectErr.noLogsFound) := by
  simp only [getLogsFromPods, List.foldl_cons, List.foldl_nil, h]
  rfl

/-- A pod stream of 10,001 full lines. -/
def capStream : PodStream := ⟨List.replicate 10001 (str "x\n"), .eofEnd []⟩

theorem capStream_length : capStream.lines.length = 10001 := by
  show (List.replicate 10001 (str "x\n")).length = 10001
  rw [List.length_replicate]

/-- A pod stream of two lines followed by a read error. -/
def errStream : PodStream := ⟨[str "a\n", str "b\n"], .readErr⟩

/-- A concrete cluster: pod `p` over the cap, pod `q` erroring mid-stream,
deployment `d` resolving to the single pod `p`. -/
def demoCluster : Cluster :=
  ⟨fun n => if n = str "p" then some capStream else if n = str "q" then some errStream else none,
   fun n => if n = str "d" then some [str "p"] else none,
   fun _ => none⟩

/-- **C4** (confirmed): multi-source batch collection returns, in resolution
order, the concatenation of the records of exactly the sources whose reads
succeeded, with no error — failing (with the no-logs-found error) precisely
when that concatenation is empty.  A failing source is skipped, never aborting
the others. -/
theorem c4_partial_failure (cl : Cluster) (cancelAt : Option Nat) (now : Int)
    (pods : List Str) (o : LogOptions) :
    getLogsFromPods cl cancelAt now pods o =
      (if (pods.map (fun p =>
            let r := GetPodLogs cl cancelAt now (podOptions o p)
            if r.2 = none then r.1 else [])).flatten = []
       then ([], some CollectErr.noLogsFound)
       else ((pods.map (fun p =>
            let r := GetPodLogs cl cancelAt now (podOptions o p)
            if r.2 = none then r.1 else [])).flatten, none)) := by
  simp only [getLogsFromPods]
  rw [getLogsFromPods_foldl cl cancelAt now o pods []]
  simp only [List.nil_append, List.length_eq_zero]

/-- **C9** (confirmed): whenever a single-source batch read stops early — on
cancellation, on a stream read error, or on the record cap — it returns every
record parsed before the stopping point; cancellation returns them with no
error (indistinguishable from normal completion), the other two alongside
their error. -/
theorem c9_early_termination :
    (∀ (cl : Cluster) (now : Int) (o : LogOptions) (st : PodStream) (k : Nat),
      o.follow = false → cl.podStream o.resourceName = some st →
      k ≤ st.lines.length → k ≤ 10000 →
      GetPodLogs cl (some k) now o =
        ((st.lines.take k).map (fun l => parseLogLine now l o.resourceName o.container), none))
    ∧ (∀ (cl : Cluster) (now : Int) (o : LogOptions) (lines : List Str),
      o.follow = false → cl.podStream o.resourceName = some ⟨lines, .readErr⟩ →
      lines.length ≤ 10000 →
      GetPodLogs cl none now o =
        (lines.map (fun l => parseLogLine now l o.resourceName o.container),
          some CollectErr.readStream))
    ∧ ∀ (cl : Cluster) (now : Int) (o : LogOptions) (st : PodStream),
      o.follow = false → cl.podStream o.resourceName = some st → 10000 < st.lines.length →
      GetPodLogs cl none now o =
        ((st.lines.take 10001).map (fun l => parseLogLine now l o.resourceName o.container),
          some CollectErr.volumeExceeded) := by
  refine ⟨?_, ?_, ?_⟩
  · intro cl now o st k hf hs hk hcap
    exact GetPodLogs_cancel cl now o st k hf hs hk hcap
  · intro cl now o lines hf hs hlen
    exact GetPodLogs_readErr cl now o lines hf hs hlen
  · intro cl now o st hf hs hlen
    exact GetPodLogs_cap cl now o st hf hs hlen

theorem c9_early_termination_witness :
    (GetPodLogs demoCluster (some 1) 0 ⟨str "pod", str "q", [], false⟩ =
      ((errStream.lines.take 1).map (fun l => parseLogLine 0 l (str "q") []), none)) ∧
    (GetPodLogs demoCluster none 0 ⟨str "pod", str "q", [], false⟩ =
      (errStream.lines.map (fun l => parseLogLine 0 l (str "q") []),
        some CollectErr.readStream)) ∧
    (GetPodLogs demoCluster none 0 ⟨str "pod", str "p", [], false⟩ =
      ((capStream.lines.take 10001).map (fun l => parseLogLine 0 l (str "p") []),
        some CollectErr.volumeExceeded)) :=
  ⟨c9_early_termination.1 demoCluster 0 ⟨str "pod", str "q", [], false⟩ errStream 1 rfl rfl
      (by decide) (by decide),
    c9_early_termination.2.1 demoCluster 0 ⟨str "pod", str "q", [], false⟩ errStream.lines rfl rfl
      (by decide),
    c9_early_termination.2.2 demoCluster 0 ⟨str "pod", str "p", [], false⟩ capStream rfl rfl
      (by rw [capStream_length]; norm_num)⟩

/-- **C5** (amended): the batch call fails with the unsupported-kind error
exactly when the kind is outside {pod, deployment, deploy, statefulset, sts}
(the two aliases are accepted), while streaming dispatch rejects exactly the
kinds outside {pod, deployment, statefulset} (no aliases). -/
theorem c5_kind_dispatch (cl : Cluster) (cancelAt : Option Nat) (now : Int) (o : LogOptions) :
    ((GetResourceLogs cl cancelAt now o).2 = some CollectErr.unsupportedKind ↔
      o.resourceType ∉ [str "pod", str "deployment", str "deploy", str "statefulset", str "sts"])
    ∧ (streamLogsDispatch o.resourceType = StreamDispatch.unsupported ↔
      o.resourceType ∉ [str "pod", str "deployment", str "statefulset"]) := by
  constructor
  · by_cases h1 : o.resourceType = str "pod"
    · rw [GetResourceLogs, if_pos h1, h1]
      exact iff_of_false (GetPodLogs_ne_unsupported cl cancelAt now o) (by decide)
    · by_cases h2 : o.resourceType = str "deployment" ∨ o.resourceType = str "deploy"
      · rw [GetResourceLogs, if_neg h1, if_pos h2]
        rcases h2 with h | h <;> rw [h] <;>
          exact iff_of_false (getDeploymentLogs_ne_unsupported cl cancelAt now o) (by decide)
      · by_cases h3 : o.resourceType = str "statefulset" ∨ o.resourceType = str "sts"
        · rw [GetResourceLogs, if_neg h1, if_neg h2, if_pos h3]
          rcases h3 with h | h <;> rw [h] <;>
            exact iff_of_false (getStatefulSetLogs_ne_unsupported cl cancelAt now o) (by decide)
        · rw [GetResourceLogs, if_neg h1, if_neg h2, if_neg h3]
          refine iff_of_true rfl ?_
          intro hmem
          simp only [List.mem_cons, List.not_mem_nil, or_false] at hmem
          rcases hmem with h | h | h | h | h
          exacts [h1 h, h2 (Or.inl h), h2 (Or.inr h), h3 (Or.inl h), h3 (Or.inr h)]
  · by_cases h1 : o.resourceType = str "pod"
    · rw [streamLogsDispatch, if_pos h1, h1]
      exact iff_of_false (by decide) (by decide)
    · by_cases h2 : o.resourceType = str "deployment"
      · rw [streamLogsDispatch, if_neg h1, if_pos h2, h2]
        exact iff_of_false (by decide) (by decide)
      · by_cases h3 : o.resourceType = str "statefulset"
        · rw [streamLogsDispatch, if_neg h1, if_neg h2, if_pos h3, h3]
          exact iff_of_false (by decide) (by decide)
        · rw [streamLogsDispatch, if_neg h1, if_neg h2, if_neg h3]
          refine iff_of_true rfl ?_
          intro hmem
          simp only [List.mem_cons, List.not_mem_nil, or_false] at hmem
          rcases hmem with h | h | h
          exacts [h1 h, h2 h, h3 h]

/-- **C5** (counterexample to the claim as stated): `deploy` is outside the
claimed set {pod, deployment, statefulset}, yet the batch call does not fail
with the unsupported-kind error — it proceeds to deployment resolution. -/
theorem c5_counterexample :
    str "deploy" ∉ [str "pod", str "deployment", str "statefulset"] ∧
    (GetResourceLogs demoCluster none 0 ⟨str "deploy", str "bad", [], false⟩).2 ≠
      some CollectErr.unsupportedKind := by
  constructor <;> decide

/-! ### The character inventory of parseable timestamp prefixes -/

/-- The characters a `time.Parse`-parseable string is built from (`,` can
occur as the fractional-second separator of the general-parser fallback). -/
def tsChar (c : Char) : Prop := isDigitChar c = true ∨ c ∈ ['-', ':', 'T', 'Z', '.', '+', ',']

instance (c : Char) : Decidable (tsChar c) := by unfold tsChar; infer_instance

theorem digit_toLower {c : Char} (h : isDigitChar c = true) : c.toLower = c := by
  simp only [isDigitChar, decide_eq_true_eq] at h
  simp only [Char.toLower]
  rw [if_neg (by omega)]

theorem readDigits_decomp :
    ∀ (n : Nat) (s r : Str) (v : Nat), readDigits n s = some (v, r) →
      ∃ ds, s = ds ++ r ∧ ds.length = n ∧ ∀ c ∈ ds, isDigitChar c = true := by
  intro n
  induction n with
  | zero =>
    intro s r v h
    simp only [readDigits, Option.some.injEq, Prod.mk.injEq] at h
    exact ⟨[], by simp [h.2], rfl, by simp⟩
  | succ n ih =>
    intro s r v h
    cases s with
    | nil => simp [readDigits] at h
    | cons c s0 =>
      rw [readDigits] at h
      by_cases hd : isDigitChar c = true
      · rw [if_pos hd] at h
        cases hr : readDigits n s0 with
        | none => rw [hr] at h; cases h
        | some p =>
          rw [hr] at h
          simp only [Option.map_some', Option.some.injEq, Prod.mk.injEq] at h
          obtain ⟨ds, hds, hlen, hch⟩ := ih s0 p.2 p.1 (by rw [hr])
          refine ⟨c :: ds, ?_, by simp [hlen], ?_⟩
          · rw [hds, h.2]
            rfl
          · intro x hx
            rcases List.mem_cons.1 hx with hx | hx
            · rw [hx]; exact hd
            · exact hch x hx
      · rw [if_neg hd] at h; cases h

theorem readChar_decomp {c : Char} {s r : Str} (h : readChar c s = some r) : s = c :: r := by
  cases s with
  | nil => cases h
  | cons x t =>
    rw [readChar] at h
    by_cases hx : x = c
    · rw [if_pos hx] at h
      rw [hx, Option.some.inj h]
    · rw [if_neg hx] at h; cases h

theorem readFrac_chars (s : Str) :
    ∃ pre, s = pre ++ (readFrac s).2 ∧ ∀ c ∈ pre, tsChar c := by
  cases s with
  | nil => exact ⟨[], rfl, by simp⟩
  | cons c r =>
    rw [readFrac]
    by_cases hc : c = '.' ∨ c = ','
    · rw [if_pos hc]
      by_cases hd : r.takeWhile isDigitChar = []
      · rw [if_pos hd]
        exact ⟨[], rfl, by simp⟩
      · rw [if_neg hd]
        refine ⟨c :: r.takeWhile isDigitChar, ?_, ?_⟩
        · show c :: r = c :: (r.takeWhile isDigitChar ++ r.dropWhile isDigitChar)
          rw [List.takeWhile_append_dropWhile]
        · intro x hx
          rcases List.mem_cons.1 hx with hx | hx
          · rcases hc with hc | hc <;> rw [hx, hc] <;> decide
          · exact Or.inl (List.mem_takeWhile_imp hx)
    · rw [if_neg hc]
      exact ⟨[], rfl, by simp⟩

theorem readOffset_chars {s : Str} {b : Bool} {oh om : Nat} {r : Str}
    (h : readOffset s = some (b, oh, om, r)) :
    ∃ pre, s = pre ++ r ∧ ∀ c ∈ pre, tsChar c := by
  cases s with
  | nil => cases h
  | cons c r0 =>
    rw [readOffset] at h
    by_cases hz : c = 'Z'
    · rw [if_pos hz] at h
      have h5 := Option.some.inj h
      have hr : r0 = r := congrArg (fun t => t.2.2.2) h5
      refine ⟨[c], by rw [hr]; rfl, ?_⟩
      intro x hx
      rcases List.mem_cons.1 hx with hx | hx
      · rw [hx, hz]; decide
      · cases hx
    · rw [if_neg hz] at h
      by_cases hs : c = '+' ∨ c = '-'
      · rw [if_pos hs] at h
        cases h1 : readDigits 2 r0 with
        | none => rw [h1] at h; cases h
        | some p =>
          rw [h1] at h
          obtain ⟨ohv, r2⟩ := p
          cases r2 with
          | nil => cases h
          | cons c2 r3 =>
            dsimp only at h
            by_cases h2 : c2 = ':'
            · rw [if_pos h2] at h
              cases h3 : readDigits 2 r3 with
              | none => rw [h3] at h; cases h
              | some q =>
                rw [h3] at h
                obtain ⟨omv, r4⟩ := q
                dsimp only at h
                by_cases h4 : ohv ≤ 23 ∧ omv ≤ 59
                · rw [if_pos h4] at h
                  have h5 := Option.some.inj h
                  have hr : r4 = r := congrArg (fun t => t.2.2.2) h5
                  obtain ⟨ds1, hds1, _, hc1⟩ := readDigits_decomp 2 r0 (c2 :: r3) ohv h1
                  obtain ⟨ds2, hds2, _, hc2⟩ := readDigits_decomp 2 r3 r4 omv h3
                  refine ⟨c :: (ds1 ++ c2 :: ds2), ?_, ?_⟩
                  · rw [← hr]
                    show c :: r0 = c :: ((ds1 ++ c2 :: ds2) ++ r4)
                    rw [hds1, hds2]
                    simp
                  · intro x hx
                    rcases List.mem_cons.1 hx with hx | hx
                    · rcases hs with hsg | hsg <;> rw [hx, hsg] <;> decide
                    · rcases List.mem_append.1 hx with hx | hx
                      · exact Or.inl (hc1 x hx)
                      · rcases List.mem_cons.1 hx with hx | hx
                        · rw [hx, h2]; decide
                        · exact Or.inl (hc2 x hx)
                · rw [if_neg h4] at h; cases h
            · rw [if_neg h2] at h; cases h
      · rw [if_neg hs] at h; cases h

/-- A successfully parsed timestamp string is nonempty and built only from
digits, `-`, `:`, `T`, `Z`, `.`, `+` and `,` — in particular it contains no
space, no newline, and no letter other than `T`/`Z`. -/
theorem rfc3339_chars {s : Str} {T : DateTime} (h : rfc3339Parse s = some T) :
    0 < s.length ∧ ∀ c ∈ s, tsChar c := by
  rw [rfc3339Parse] at h
  simp only [Option.bind_eq_some] at h
  obtain ⟨p1, h1, s2, h2, p2, h3, s4, h4, p3, h5, s6, h6, p4, h7, s8, h8, p5, h9, s10, h10,
    p6, h11, q, h12, h⟩ := h
  obtain ⟨ds1, hds1, hl1, hc1⟩ := readDigits_decomp 4 s p1.2 p1.1 h1
  have e2 := readChar_decomp h2
  obtain ⟨ds2, hds2, hl2, hc2⟩ := readDigits_decomp 2 s2 p2.2 p2.1 h3
  have e4 := readChar_decomp h4
  obtain ⟨ds3, hds3, hl3, hc3⟩ := readDigits_decomp 2 s4 p3.2 p3.1 h5
  have e6 := readChar_decomp h6
  obtain ⟨ds4, hds4, hl4, hc4⟩ := readDigits_decomp 2 s6 p4.2 p4.1 h7
  have e8 := readChar_decomp h8
  obtain ⟨ds5, hds5, hl5, hc5⟩ := readDigits_decomp 2 s8 p5.2 p5.1 h9
  have e10 := readChar_decomp h10
  obtain ⟨ds6, hds6, hl6, hc6⟩ := readDigits_decomp 2 s10 p6.2 p6.1 h11
  obtain ⟨fpre, hf, hcf⟩ := readFrac_chars p6.2
  obtain ⟨opre, ho, hco⟩ := readOffset_chars h12
  have hnil : q.2.2.2 = [] := by
    by_cases hg : q.2.2.2 = [] ∧ 1 ≤ p2.1 ∧ p2.1 ≤ 12 ∧ 1 ≤ p3.1 ∧
        p3.1 ≤ daysInMonth p1.1 p2.1 ∧ p4.1 ≤ 23 ∧ p5.1 ≤ 59 ∧ p6.1 ≤ 59
    · exact hg.1
    · rw [if_neg hg] at h; cases h
  rw [hds1, e2, hds2, e4, hds3, e6, hds4, e8, hds5, e10, hds6, hf, ho, hnil, List.append_nil]
  constructor
  · simp only [List.length_append, List.length_cons]
    omega
  · refine List.forall_mem_append.2 ⟨fun c hc => Or.inl (hc1 c hc), ?_⟩
    refine List.forall_mem_cons.2 ⟨by decide, ?_⟩
    refine List.forall_mem_append.2 ⟨fun c hc => Or.inl (hc2 c hc), ?_⟩
    refine List.forall_mem_cons.2 ⟨by decide, ?_⟩
    refine List.forall_mem_append.2 ⟨fun c hc => Or.inl (hc3 c hc), ?_⟩
    refine List.forall_mem_cons.2 ⟨by decide, ?_⟩
    refine List.forall_mem_append.2 ⟨fun c hc => Or.inl (hc4 c hc), ?_⟩
    refine List.forall_mem_cons.2 ⟨by decide, ?_⟩
    refine List.forall_mem_append.2 ⟨fun c hc => Or.inl (hc5 c hc), ?_⟩
    refine List.forall_mem_cons.2 ⟨by decide, ?_⟩
    refine List.forall_mem_append.2 ⟨fun c hc => Or.inl (hc6 c hc), ?_⟩
    exact List.forall_mem_append.2 ⟨hcf, hco⟩

theorem trimNewline_eq {l : Str} (h : l.getLast? ≠ some '\n') : trimNewline l = l := by
  unfold trimNewline
  rw [if_neg h]

/-- `strings.IndexByte` finds the separating space right after a space-free
prefix. -/
theorem indexOf_space (ts rest : Str) (hts : ∀ c ∈ ts, tsChar c) :
    indexOfChar ' ' (ts ++ ' ' :: rest) = some ts.length := by
  induction ts with
  | nil => simp [indexOfChar]
  | cons x t ih =>
    have hx : ¬ x = ' ' := by
      intro he
      have hc := hts x (List.mem_cons_self x t)
      rw [he] at hc
      exact (by decide : ¬ tsChar ' ') hc
    rw [List.cons_append, indexOfChar, if_neg hx,
      ih (fun c hc => hts c (List.mem_cons_of_mem x hc))]
    rfl

/-- Inversion of `indexOfChar`: the string splits at the found index. -/
theorem indexOfChar_decomp {c : Char} : ∀ {l : Str} {i : Nat},
    indexOfChar c l = some i → l = l.take i ++ c :: l.drop (i + 1) := by
  intro l
  induction l with
  | nil => intro i h; cases h
  | cons x t ih =>
    intro i h
    rw [indexOfChar] at h
    by_cases hx : x = c
    · rw [if_pos hx] at h
      obtain rfl : (0 : Nat) = i := Option.some.inj h
      simp [hx]
    · rw [if_neg hx] at h
      cases hi : indexOfChar c t with
      | none => rw [hi] at h; cases h
      | some j =>
        rw [hi] at h
        simp only [Option.map_some', Option.some.injEq] at h
        obtain rfl : j + 1 = i := h
        rw [List.take_succ_cons, List.drop_succ_cons, List.cons_append]
        exact congrArg (x :: ·) (ih hi)

theorem containsStr_cons_of_head_ne {x h0 : Char} {l pt : Str} (hne : h0 ≠ x) :
    containsStr (x :: l) (h0 :: pt) = containsStr l (h0 :: pt) := by
  unfold containsStr
  rw [indexOfSubstr.eq_def]
  have hpre : ((h0 :: pt).isPrefixOf (x :: l)) = false := by
    simp [List.isPrefixOf, hne]
  simp [hpre]

/-- Substring search skips over a prefix that does not contain the pattern's
first character. -/
theorem containsStr_append_right {h0 : Char} {pt : Str} : ∀ (pre rest : Str), h0 ∉ pre →
    containsStr (pre ++ rest) (h0 :: pt) = containsStr rest (h0 :: pt) := by
  intro pre
  induction pre with
  | nil => intro rest _; rfl
  | cons x p ih =>
    intro rest hx
    rw [List.cons_append,
      containsStr_cons_of_head_ne (fun he => hx (by rw [he]; exact List.mem_cons_self x p))]
    exact ih rest (fun hm => hx (List.mem_cons_of_mem _ hm))

theorem find?_congr {α : Type} {p q : α → Bool} :
    ∀ (l : List α), (∀ a ∈ l, p a = q a) → l.find? p = l.find? q := by
  intro l
  induction l with
  | nil => intro _; rfl
  | cons a t ih =>
    intro h
    rw [List.find?, List.find?, h a (List.mem_cons_self a t)]
    cases hqa : q a
    · simp only [hqa]
      exact ih (fun b hb => h b (List.mem_cons_of_mem a hb))
    · simp only [hqa]

/-! ### C6: level classification as the specification states it -/

/-- The level of a line as the specification states it: the first candidate of
the fixed ordered list {DEBUG, INFO, WARN, WARNING, ERROR, FATAL} occurring as
a case-sensitive substring of the line; else ERROR / WARN / INFO by the
case-insensitive heuristic. -/
def specLevel (line : Str) : Str :=
  match levelCandidates.find? (fun lvl => containsStr line lvl) with
  | some lvl => lvl
  | none =>
    if containsStr (lowerStr line) (str "error") || containsStr (lowerStr line) (str "exception")
        || containsStr (lowerStr line) (str "fail") then str "ERROR"
    else if containsStr (lowerStr line) (str "warn") then str "WARN"
    else str "INFO"

theorem levelOf_eq_specLevel (l : Str) : levelOf l = specLevel l := rfl

theorem head_not_mem_ts {ts : Str} (hts : ∀ c ∈ ts, tsChar c) {x : Char}
    (hx : ¬ tsChar x) (hsp : x ≠ ' ') : x ∉ ts ++ [' '] := by
  intro hmem
  rcases List.mem_append.1 hmem with hm | hm
  · exact hx (hts x hm)
  · rw [List.mem_singleton] at hm
    exact hsp hm

theorem tsChar_toLower_ne {c : Char} (h : tsChar c) {x : Char} (hx : x ∈ ['e', 'f', 'w']) :
    c.toLower ≠ x := by
  intro he
  rcases h with hd | hm
  · rw [digit_toLower hd] at he
    rw [he] at hd
    fin_cases hx <;> exact absurd hd (by decide)
  · revert he
    fin_cases hm <;> fin_cases hx <;> decide

theorem head_not_mem_lower {ts : Str} (hts : ∀ c ∈ ts, tsChar c) {x : Char}
    (hx : ∀ c : Char, tsChar c → c.toLower ≠ x) (hsp : x ≠ ' ') :
    x ∉ lowerStr ts ++ [' '] := by
  intro hmem
  rcases List.mem_append.1 hmem with hm | hm
  · obtain ⟨c, hc, hcl⟩ := List.mem_map.1 hm
    exact hx c (hts c hc) hcl
  · rw [List.mem_singleton] at hm
    exact hsp hm

/-- Stripping a parseable timestamp prefix (plus the space) does not change
the classified level: no level token and no heuristic keyword can overlap it. -/
theorem specLevel_strip (ts rest : Str) (hts : ∀ c ∈ ts, tsChar c) :
    specLevel (ts ++ ' ' :: rest) = specLevel rest := by
  have hsplit : ts ++ ' ' :: rest = (ts ++ [' ']) ++ rest := by simp
  have hcand : ∀ lvl ∈ levelCandidates,
      containsStr (ts ++ ' ' :: rest) lvl = containsStr rest lvl := by
    intro lvl hlvl
    rw [hsplit]
    fin_cases hlvl
    · exact containsStr_append_right _ _ (head_not_mem_ts hts (by decide) (by decide))
    · exact containsStr_append_right _ _ (head_not_mem_ts hts (by decide) (by decide))
    · exact containsStr_append_right _ _ (head_not_mem_ts hts (by decide) (by decide))
    · exact containsStr_append_right _ _ (head_not_mem_ts hts (by decide) (by decide))
    · exact containsStr_append_right _ _ (head_not_mem_ts hts (by decide) (by decide))
    · exact containsStr_append_right _ _ (head_not_mem_ts hts (by decide) (by decide))
  have hsp : Char.toLower ' ' = ' ' := by decide
  have hlow : lowerStr (ts ++ ' ' :: rest) = (lowerStr ts ++ [' ']) ++ lowerStr rest := by
    simp [lowerStr, hsp]
  have hkey : ∀ kw, kw ∈ [str "error", str "exception", str "fail", str "warn"] →
      containsStr (lowerStr (ts ++ ' ' :: rest)) kw = containsStr (lowerStr rest) kw := by
    intro kw hkw
    rw [hlow]
    fin_cases hkw
    · exact containsStr_append_right _ _
        (head_not_mem_lower hts (fun c hc => tsChar_toLower_ne hc (by decide)) (by decide))
    · exact containsStr_append_right _ _
        (head_not_mem_lower hts (fun c hc => tsChar_toLower_ne hc (by decide)) (by decide))
    · exact containsStr_append_right _ _
        (head_not_mem_lower hts (fun c hc => tsChar_toLower_ne hc (by decide)) (by decide))
    · exact containsStr_append_right _ _
        (head_not_mem_lower hts (fun c hc => tsChar_toLower_ne hc (by decide)) (by decide))
  unfold specLevel
  rw [find?_congr levelCandidates hcand, hkey (str "error") (by simp),
    hkey (str "exception") (by simp), hkey (str "fail") (by simp), hkey (str "warn") (by simp)]

/-- Forward characterization of `strings.Index`: the found position carries an
occurrence, and no earlier position does. -/
theorem indexOfSubstr_some {pat : Str} : ∀ {l : Str} {i : Nat},
    indexOfSubstr l pat = some i →
      pat.isPrefixOf (l.drop i) = true ∧ ∀ j < i, pat.isPrefixOf (l.drop j) = false := by
  intro l
  induction l with
  | nil =>
    intro i h
    rw [indexOfSubstr.eq_def] at h
    dsimp only at h
    by_cases hp : pat.isPrefixOf [] = true
    · rw [if_pos hp] at h
      obtain rfl : (0 : Nat) = i := Option.some.inj h
      exact ⟨hp, fun j hj => absurd hj (by omega)⟩
    · rw [if_neg hp] at h
      cases h
  | cons x t ih =>
    intro i h
    rw [indexOfSubstr.eq_def] at h
    dsimp only at h
    by_cases hp : pat.isPrefixOf (x :: t) = true
    · rw [if_pos hp] at h
      obtain rfl : (0 : Nat) = i := Option.some.inj h
      exact ⟨hp, fun j hj => absurd hj (by omega)⟩
    · rw [if_neg hp] at h
      cases ht : indexOfSubstr t pat with
      | none => rw [ht] at h; cases h
      | some j =>
        rw [ht] at h
        simp only [Option.map_some', Option.some.injEq] at h
        obtain rfl : j + 1 = i := h
        obtain ⟨h1, h2⟩ := ih ht
        refine ⟨h1, ?_⟩
        intro j2 hj2
        cases j2 with
        | zero => exact Bool.not_eq_true _ ▸ hp
        | succ j3 => exact h2 j3 (by omega)

theorem indexOfSubstr_none {pat : Str} : ∀ {l : Str}, indexOfSubstr l pat = none →
    ∀ j, pat.isPrefixOf (l.drop j) = false := by
  intro l
  induction l with
  | nil =>
    intro h j
    rw [indexOfSubstr.eq_def] at h
    dsimp only at h
    by_cases hp : pat.isPrefixOf [] = true
    · rw [if_pos hp] at h; cases h
    · rw [List.drop_nil]
      exact Bool.not_eq_true _ ▸ hp
  | cons x t ih =>
    intro h j
    rw [indexOfSubstr.eq_def] at h
    dsimp only at h
    by_cases hp : pat.isPrefixOf (x :: t) = true
    · rw [if_pos hp] at h; cases h
    · rw [if_neg hp] at h
      have ht : indexOfSubstr t pat = none := by
        cases ht : indexOfSubstr t pat with
        | none => rfl
        | some j2 => rw [ht] at h; cases h
      cases j with
      | zero => exact Bool.not_eq_true _ ▸ hp
      | succ j2 => exact ih ht j2

/-- Forward characterization of the `FindString` scan: leftmost match, with
the matched slice coming from the first keyword (in alternation order) that
matches there. -/
theorem findFirstCI_some {keys : List Str} : ∀ {s : Str} {i : Nat} {m : Str},
    findFirstCI keys s = some (i, m) →
      ((∃ k, keys.find? (fun k => k.isPrefixOf (lowerStr (s.drop i))) = some k ∧
        m = (s.drop i).take k.length) ∧
      ∀ j < i, ∀ k ∈ keys, k.isPrefixOf (lowerStr (s.drop j)) = false) := by
  intro s
  induction s with
  | nil => intro i m h; cases h
  | cons c t ih =>
    intro i m h
    rw [findFirstCI] at h
    cases hf : keys.find? (fun k => k.isPrefixOf (lowerStr (c :: t))) with
    | some k =>
      rw [hf] at h
      simp only [Option.some.injEq, Prod.mk.injEq] at h
      obtain ⟨rfl, rfl⟩ := h
      exact ⟨⟨k, hf, rfl⟩, fun j hj => absurd hj (by omega)⟩
    | none =>
      rw [hf] at h
      cases hr : findFirstCI keys t with
      | none => rw [hr] at h; cases h
      | some p =>
        rw [hr] at h
        obtain ⟨j0, m0⟩ := p
        simp only [Option.map_some', Option.some.injEq, Prod.mk.injEq] at h
        obtain ⟨rfl, rfl⟩ := h
        obtain ⟨hex, hmin⟩ := ih hr
        refine ⟨hex, ?_⟩
        intro j2 hj2 k hk
        cases j2 with
        | zero =>
          exact Bool.not_eq_true _ ▸ List.find?_eq_none.1 hf k hk
        | succ j3 => exact hmin j3 (by omega) k hk

theorem findFirstCI_none {keys : List Str} (hne : [] ∉ keys) :
    ∀ {s : Str}, findFirstCI keys s = none →
    ∀ j, ∀ k ∈ keys, k.isPrefixOf (lowerStr (s.drop j)) = false := by
  intro s
  induction s with
  | nil =>
    intro _ j k hk
    rw [List.drop_nil]
    cases k with
    | nil => exact absurd hk hne
    | cons a b => rfl
  | cons c t ih =>
    intro h j k hk
    rw [findFirstCI] at h
    cases hf : keys.find? (fun k => k.isPrefixOf (lowerStr (c :: t))) with
    | some k2 => rw [hf] at h; cases h
    | none =>
      rw [hf] at h
      have hr : findFirstCI keys t = none := by
        cases hr : findFirstCI keys t with
        | none => rfl
        | some p => rw [hr] at h; cases h
      cases j with
      | zero =>
        exact Bool.not_eq_true _ ▸ List.find?_eq_none.1 hf k hk
      | succ j2 => exact ih hr j2 k hk

/-- Lowercasing the matched slice gives back the (lowercase) keyword. -/
theorem lower_take_of_isPrefixOf {k s : Str} (h : k.isPrefixOf (lowerStr s) = true) :
    lowerStr (s.take k.length) = k := by
  obtain ⟨t, ht⟩ := List.isPrefixOf_iff_prefix.1 h
  have hmap : lowerStr (s.take k.length) = (lowerStr s).take k.length := by
    simp [lowerStr, List.map_take]
  rw [hmap, ← ht]
  exact List.take_left k t

/-- The specification's "first case-insensitive occurrence of a keyword": the
minimum over the keywords of the position of its first occurrence in the
lowercased message. -/
def specKeywordPos (keys : List Str) (s : Str) : Option Nat :=
  (keys.filterMap (fun k => indexOfSubstr (lowerStr s) k)).min?

/-- The pattern key as the specification states it: 10 whitespace-delimited
tokens starting at the first case-insensitive keyword occurrence, else the
first 10 tokens. -/
def specPatternKey (keys : List Str) (message : Str) : Str :=
  match specKeywordPos keys message with
  | some i => joinSpace ((splitOnSpace (message.drop i)).take 10)
  | none => joinSpace ((splitOnSpace message).take 10)

theorem lowerStr_drop (s : Str) (i : Nat) : (lowerStr s).drop i = lowerStr (s.drop i) := by
  simp [lowerStr, List.map_drop]

/-- The scan of `extractKeyCore` computes exactly the specification's key. -/
theorem extractKeyCore_eq_spec (keys : List Str) (hne : [] ∉ keys) (message : Str) :
    extractKeyCore keys message = specPatternKey keys message := by
  cases hf : findFirstCI keys message with
  | none =>
    have hnone : specKeywordPos keys message = none := by
      unfold specKeywordPos
      have hemp : keys.filterMap (fun k => indexOfSubstr (lowerStr message) k) = [] := by
        rw [List.filterMap_eq_nil_iff]
        intro k hk
        cases hidx : indexOfSubstr (lowerStr message) k with
        | none => rfl
        | some i =>
          have hocc := (indexOfSubstr_some hidx).1
          rw [lowerStr_drop] at hocc
          rw [findFirstCI_none hne hf i k hk] at hocc
          cases hocc
      rw [hemp]
      rfl
    unfold extractKeyCore specPatternKey
    rw [hf, hnone]
  | some p =>
    obtain ⟨i, m⟩ := p
    obtain ⟨⟨k, hk, hm⟩, hmin⟩ := findFirstCI_some hf
    have hkmem : k ∈ keys := List.mem_of_find?_eq_some hk
    have hkpred : k.isPrefixOf (lowerStr (message.drop i)) = true := by
      simpa using List.find?_some hk
    have hlm : lowerStr m = k := by
      rw [hm]
      exact lower_take_of_isPrefixOf hkpred
    have hidx : indexOfSubstr (lowerStr message) k = some i := by
      cases hi : indexOfSubstr (lowerStr message) k with
      | none =>
        have := indexOfSubstr_none hi i
        rw [lowerStr_drop] at this
        rw [this] at hkpred
        cases hkpred
      | some i0 =>
        obtain ⟨hocc0, hmin0⟩ := indexOfSubstr_some hi
        rw [lowerStr_drop] at hocc0
        rcases Nat.lt_trichotomy i0 i with hlt | heq | hgt
        · rw [hmin i0 hlt k hkmem] at hocc0
          cases hocc0
        · rw [heq]
        · have := hmin0 i hgt
          rw [lowerStr_drop] at this
          rw [this] at hkpred
          cases hkpred
    have hspec : specKeywordPos keys message = some i := by
      unfold specKeywordPos
      have hmem : i ∈ keys.filterMap (fun k => indexOfSubstr (lowerStr message) k) :=
        List.mem_filterMap.2 ⟨k, hkmem, hidx⟩
      have hlb : ∀ j ∈ keys.filterMap (fun k => indexOfSubstr (lowerStr message) k), i ≤ j := by
        intro j hj
        obtain ⟨k2, hk2, hj2⟩ := List.mem_filterMap.1 hj
        by_contra hlt
        have hocc := (indexOfSubstr_some hj2).1
        rw [lowerStr_drop] at hocc
        rw [hmin j (by omega) k2 hk2] at hocc
        cases hocc
      exact List.min?_eq_some_iff'.2 ⟨hmem, hlb⟩
    unfold extractKeyCore specPatternKey
    rw [hf]
    dsimp only
    rw [hlm, hidx, hspec]

/-- **C7** (amended): for the analyzer's error pattern keys, the key of a
record's content is the substring of the normalized content starting at the
first case-insensitive occurrence of a keyword from {error, exception, failed,
failure, fatal, panic} through the next 10 whitespace-delimited tokens (the
first 10 tokens when no keyword occurs) — where normalization *deletes*
ISO-8601-like timestamps and replaces UUIDs, IP addresses and bare integers
with placeholder tokens, then collapses whitespace. -/
theorem c7_pattern_key (content : Str) :
    extractErrorKey (normalizeLogMessage content) =
      specPatternKey errorKeywords (normalizeLogMessage content) :=
  extractKeyCore_eq_spec errorKeywords (by decide) (normalizeLogMessage content)

/-- The normalized form of `error <timestamp>` keeps no token in place of the
timestamp. -/
def c7input : Str := str "error 2024-01-02T03:04:05Z"

/-- **C7** (counterexample to the claim as stated): the claim says timestamps
are replaced with a placeholder token.  For the content `error <timestamp>`
that would make the normalized content `error <ph>` for some nonempty
whitespace-free token `ph` — the keyword `error` still matches at position 0
and there are at most 10 tokens, so the claimed key is `error <ph>`.  The
code's key is just `error`: the timestamp is deleted, not replaced. -/
theorem c7_counterexample :
    ¬ ∃ ph : Str, ph ≠ [] ∧ (∀ c ∈ ph, isSpaceGo c = false) ∧
        joinSpace [str "error", ph] = extractErrorKey (normalizeLogMessage c7input) := by
  rintro ⟨ph, hne, _, heq⟩
  have hkey : extractErrorKey (normalizeLogMessage c7input) = str "error" := by decide
  rw [hkey] at heq
  have hlen := congrArg List.length heq
  simp [joinSpace, List.intercalate, str] at hlen

/-! ### C8: analyzer count invariants -/

/-- The level test of the `ERROR`/`FATAL` branch of `ParseLogs`. -/
def isErrorLevel (e : LogEntry) : Bool :=
  e.logLevel = str "ERROR" || e.logLevel = str "FATAL"

/-- The level test of the `WARN`/`WARNING` branch of `ParseLogs`. -/
def isWarnLevel (e : LogEntry) : Bool :=
  e.logLevel = str "WARN" || e.logLevel = str "WARNING"

/-- The pattern key `ParseLogs` computes for an error entry. -/
def entryErrorKey (e : LogEntry) : Str := extractErrorKey (normalizeLogMessage e.content)

/-- The pattern key `ParseLogs` computes for a warning entry. -/
def entryWarningKey (e : LogEntry) : Str := extractWarningKey (normalizeLogMessage e.content)

/-- The distinct error pattern keys occurring in a record sequence. -/
def errorKeysOf (logs : List LogEntry) : List Str :=
  ((logs.filter isErrorLevel).map entryErrorKey).dedup

/-- The distinct warning pattern keys occurring in a record sequence. -/
def warningKeysOf (logs : List LogEntry) : List Str :=
  ((logs.filter isWarnLevel).map entryWarningKey).dedup

/-- The sum of the retained pattern counts. -/
def patSum (ps : List LogPattern) : Nat := (ps.map LogPattern.count).sum

theorem isErrorLevel_iff (e : LogEntry) :
    isErrorLevel e = true ↔ (e.logLevel = str "ERROR" ∨ e.logLevel = str "FATAL") := by
  simp [isErrorLevel]

theorem isWarnLevel_iff (e : LogEntry) :
    isWarnLevel e = true ↔ (e.logLevel = str "WARN" ∨ e.logLevel = str "WARNING") := by
  simp [isWarnLevel]

theorem isErrorLevel_not_warn (e : LogEntry) (h1 : isErrorLevel e = true)
    (h2 : isWarnLevel e = true) : False := by
  rcases (isErrorLevel_iff e).1 h1 with ha | ha <;> rcases (isWarnLevel_iff e).1 h2 with hb | hb <;>
    rw [ha] at hb <;> exact absurd hb (by decide)

theorem isErrorLevel_eq_false {e : LogEntry}
    (h : ¬(e.logLevel = str "ERROR" ∨ e.logLevel = str "FATAL")) : isErrorLevel e = false := by
  cases hb : isErrorLevel e
  · rfl
  · exact (h ((isErrorLevel_iff e).1 hb)).elim

theorem isWarnLevel_eq_false {e : LogEntry}
    (h : ¬(e.logLevel = str "WARN" ∨ e.logLevel = str "WARNING")) : isWarnLevel e = false := by
  cases hb : isWarnLevel e
  · rfl
  · exact (h ((isWarnLevel_iff e).1 hb)).elim

theorem filter_append_singleton_pos {p : LogEntry → Bool} {e : LogEntry} (hp : p e = true)
    (ps : List LogEntry) : (ps ++ [e]).filter p = ps.filter p ++ [e] := by
  rw [List.filter_append]
  simp [List.filter_cons, hp]

theorem filter_append_singleton_neg {p : LogEntry → Bool} {e : LogEntry} (hp : p e = false)
    (ps : List LogEntry) : (ps ++ [e]).filter p = ps.filter p := by
  rw [List.filter_append]
  simp [List.filter_cons, hp]

/-- Counting two disjoint level classes never exceeds the record count. -/
theorem filter_two_length_le (p q : LogEntry → Bool)
    (hdisj : ∀ a, p a = true → q a = true → False) :
    ∀ l : List LogEntry, (l.filter p).length + (l.filter q).length ≤ l.length := by
  intro l
  induction l with
  | nil => simp
  | cons a r ih =>
    by_cases hp : p a = true
    · by_cases hq : q a = true
      · exact (hdisj a hp hq).elim
      · rw [List.filter_cons, List.filter_cons, if_pos hp, if_neg hq]
        simp only [List.length_cons]
        omega
    · by_cases hq : q a = true
      · rw [List.filter_cons, List.filter_cons, if_neg hp, if_pos hq]
        simp only [List.length_cons]
        omega
      · rw [List.filter_cons, List.filter_cons, if_neg hp, if_neg hq]
        simp only [List.length_cons]
        omega

/-- `m[k]++` adds exactly one to the total stored count. -/
theorem bump_snd_sum {α : Type} [DecidableEq α] (m : List (α × Nat)) (k : α) :
    ((bump m k).map Prod.snd).sum = (m.map Prod.snd).sum + 1 := by
  induction m with
  | nil => rfl
  | cons p r ih =>
    obtain ⟨k1, v⟩ := p
    by_cases hk : k1 = k
    · simp only [bump, if_pos hk, List.map_cons, List.sum_cons]
      omega
    · simp only [bump, if_neg hk, List.map_cons, List.sum_cons, ih]
      omega

/-- `m[k]++` adds `k` to the key set and nothing else. -/
theorem bump_fst_mem {α : Type} [DecidableEq α] (m : List (α × Nat)) (k a : α) :
    a ∈ (bump m k).map Prod.fst ↔ a ∈ m.map Prod.fst ∨ a = k := by
  induction m with
  | nil => simp [bump]
  | cons p r ih =>
    obtain ⟨k1, v⟩ := p
    by_cases hk : k1 = k
    · subst hk
      simp [bump]
      tauto
    · simp [bump, hk, ih]
      tauto

/-- `m[k]++` keeps the keys distinct. -/
theorem bump_fst_nodup {α : Type} [DecidableEq α] (m : List (α × Nat)) (k : α)
    (h : (m.map Prod.fst).Nodup) : ((bump m k).map Prod.fst).Nodup := by
  induction m with
  | nil => simp [bump]
  | cons p r ih =>
    obtain ⟨k1, v⟩ := p
    simp only [List.map_cons, List.nodup_cons] at h
    obtain ⟨hk1, hr⟩ := h
    by_cases hk : k1 = k
    · simp only [bump, if_pos hk, List.map_cons, List.nodup_cons]
      exact ⟨hk1, hr⟩
    · simp only [bump, if_neg hk, List.map_cons, List.nodup_cons]
      refine ⟨?_, ih hr⟩
      rw [bump_fst_mem]
      rintro (hmem | rfl)
      · exact hk1 hmem
      · exact hk rfl

/-- The loop invariant of `ParseLogs` over the entries processed so far:
counts are class sizes, count-map keys are exactly the keys of the processed
entries of the class (each once), and the stored counts total the class size. -/
def countsInv (ps : List LogEntry) (st : ParseState) : Prop :=
  st.errorCount = (ps.filter isErrorLevel).length ∧
  st.warningCount = (ps.filter isWarnLevel).length ∧
  ((st.errorMap.map Prod.fst).Nodup ∧
    ∀ a, a ∈ st.errorMap.map Prod.fst ↔ a ∈ (ps.filter isErrorLevel).map entryErrorKey) ∧
  (st.errorMap.map Prod.snd).sum = st.errorCount ∧
  ((st.warningMap.map Prod.fst).Nodup ∧
    ∀ a, a ∈ st.warningMap.map Prod.fst ↔ a ∈ (ps.filter isWarnLevel).map entryWarningKey) ∧
  (st.warningMap.map Prod.snd).sum = st.warningCount

theorem countsInv_init (t : Int) : countsInv [] ⟨0, 0, [], [], [], [], [], t, t⟩ := by
  unfold countsInv
  refine ⟨rfl, rfl, ⟨List.nodup_nil, ?_⟩, rfl, ⟨List.nodup_nil, ?_⟩, rfl⟩ <;> simp

theorem analyzeStep_countsInv (ps : List LogEntry) (st : ParseState) (e : LogEntry)
    (h : countsInv ps st) : countsInv (ps ++ [e]) (analyzeStep st e) := by
  unfold countsInv at h ⊢
  obtain ⟨hec, hwc, ⟨hnodE, hmemE⟩, hsumE, ⟨hnodW, hmemW⟩, hsumW⟩ := h
  unfold analyzeStep
  dsimp only
  by_cases he : e.logLevel = str "ERROR" ∨ e.logLevel = str "FATAL"
  · rw [if_pos he]
    have heB : isErrorLevel e = true := (isErrorLevel_iff e).2 he
    have hwB : isWarnLevel e = false := by
      cases hb : isWarnLevel e
      · rfl
      · exact (isErrorLevel_not_warn e heB hb).elim
    dsimp only
    refine ⟨?_, ?_, ⟨bump_fst_nodup _ _ hnodE, ?_⟩, ?_, ⟨hnodW, ?_⟩, hsumW⟩
    · rw [filter_append_singleton_pos heB, List.length_append, hec]
      rfl
    · rw [filter_append_singleton_neg hwB, hwc]
    · intro a
      rw [bump_fst_mem, hmemE a, filter_append_singleton_pos heB, List.map_append,
        List.mem_append]
      simp [entryErrorKey]
    · rw [bump_snd_sum, hsumE]
    · intro a
      rw [hmemW a, filter_append_singleton_neg hwB]
  · rw [if_neg he]
    by_cases hw : e.logLevel = str "WARN" ∨ e.logLevel = str "WARNING"
    · rw [if_pos hw]
      have hwB : isWarnLevel e = true := (isWarnLevel_iff e).2 hw
      have heB : isErrorLevel e = false := isErrorLevel_eq_false he
      dsimp only
      refine ⟨?_, ?_, ⟨hnodE, ?_⟩, hsumE, ⟨bump_fst_nodup _ _ hnodW, ?_⟩, ?_⟩
      · rw [filter_append_singleton_neg heB, hec]
      · rw [filter_append_singleton_pos hwB, List.length_append, hwc]
        rfl
      · intro a
        rw [hmemE a, filter_append_singleton_neg heB]
      · intro a
        rw [bump_fst_mem, hmemW a, filter_append_singleton_pos hwB, List.map_append,
          List.mem_append]
        simp [entryWarningKey]
      · rw [bump_snd_sum, hsumW]
    · rw [if_neg hw]
      have heB : isErrorLevel e = false := isErrorLevel_eq_false he
      have hwB : isWarnLevel e = false := isWarnLevel_eq_false hw
      dsimp only
      refine ⟨?_, ?_, ⟨hnodE, ?_⟩, hsumE, ⟨hnodW, ?_⟩, hsumW⟩
      · rw [filter_append_singleton_neg heB, hec]
      · rw [filter_append_singleton_neg hwB, hwc]
      · intro a
        rw [hmemE a, filter_append_singleton_neg heB]
      · intro a
        rw [hmemW a, filter_append_singleton_neg hwB]

theorem foldl_countsInv : ∀ (rest ps : List LogEntry) (st : ParseState),
    countsInv ps st → countsInv (ps ++ rest) (rest.foldl analyzeStep st) := by
  intro rest
  induction rest with
  | nil =>
    intro ps st h
    simpa using h
  | cons e r ih =>
    intro ps st h
    rw [List.foldl_cons]
    have h3 := ih (ps ++ [e]) (analyzeStep st e) (analyzeStep_countsInv ps st e h)
    simpa only [List.append_assoc, List.singleton_append] using h3

/-- A prefix's sum never exceeds the whole sum. -/
theorem sum_take_le (l : List Nat) (n : Nat) : (l.take n).sum ≤ l.sum := by
  conv_rhs => rw [← List.take_append_drop n l]
  rw [List.sum_append]
  exact Nat.le_add_right _ _

/-- Sorting does not change the total pattern count. -/
theorem sortedPatterns_sum (m : List (Str × Nat)) (ex : List (Str × List LogEntry)) :
    (((m.map (fun p => LogPattern.mk p.1 p.2 (lookupExamples ex p.1))).insertionSort
        (fun a b => b.count ≤ a.count)).map LogPattern.count).sum = (m.map Prod.snd).sum := by
  have hperm := List.perm_insertionSort (fun a b : LogPattern => b.count ≤ a.count)
      (m.map (fun p => LogPattern.mk p.1 p.2 (lookupExamples ex p.1)))
  rw [(hperm.map LogPattern.count).sum_eq, List.map_map]
  rfl

theorem patSum_convertToPatterns_le (m : List (Str × Nat)) (ex : List (Str × List LogEntry)) :
    patSum (convertToPatterns m ex) ≤ (m.map Prod.snd).sum := by
  unfold patSum convertToPatterns
  dsimp only
  refine le_trans ?_ (le_of_eq (sortedPatterns_sum m ex))
  rw [List.map_take]
  exact sum_take_le _ _

theorem patSum_convertToPatterns_eq (m : List (Str × Nat)) (ex : List (Str × List LogEntry))
    (h : m.length ≤ 10) : patSum (convertToPatterns m ex) = (m.map Prod.snd).sum := by
  unfold patSum convertToPatterns
  dsimp only
  have hperm := List.perm_insertionSort (fun a b : LogPattern => b.count ≤ a.count)
      (m.map (fun p => LogPattern.mk p.1 p.2 (lookupExamples ex p.1)))
  have hlen : ((m.map (fun p => LogPattern.mk p.1 p.2 (lookupExamples ex p.1))).insertionSort
      (fun a b => b.count ≤ a.count)).length ≤ 10 := by
    rw [hperm.length_eq, List.length_map]
    exact h
  rw [List.take_of_length_le hlen, (hperm.map LogPattern.count).sum_eq, List.map_map]
  rfl

/-- **C8**: for every input record sequence, the summary of `ParseLogs`
satisfies `errorCount + warningCount ≤ totalEntries`; the counts retained in
`commonErrors` total at most `errorCount`, with equality whenever fewer than
10 distinct error pattern keys occur; and symmetrically for `commonWarnings`
and `warningCount`. -/
theorem c8_analyzer_counts (logs : List LogEntry) :
    (ParseLogs logs).errorCount + (ParseLogs logs).warningCount ≤ (ParseLogs logs).totalEntries ∧
    patSum (ParseLogs logs).commonErrors ≤ (ParseLogs logs).errorCount ∧
    ((errorKeysOf logs).length < 10 →
      patSum (ParseLogs logs).commonErrors = (ParseLogs logs).errorCount) ∧
    patSum (ParseLogs logs).commonWarnings ≤ (ParseLogs logs).warningCount ∧
    ((warningKeysOf logs).length < 10 →
      patSum (ParseLogs logs).commonWarnings = (ParseLogs logs).warningCount) := by
  cases logs with
  | nil =>
    refine ⟨?_, ?_, ?_, ?_, ?_⟩ <;> simp [ParseLogs, patSum]
  | cons e0 rest =>
    have hinv := foldl_countsInv (e0 :: rest) []
        ⟨0, 0, [], [], [], [], [], e0.timestamp, e0.timestamp⟩ (countsInv_init e0.timestamp)
    rw [List.nil_append] at hinv
    unfold countsInv at hinv
    obtain ⟨hec, hwc, ⟨hnodE, hmemE⟩, hsumE, ⟨hnodW, hmemW⟩, hsumW⟩ := hinv
    have hEc : (ParseLogs (e0 :: rest)).errorCount = ((e0 :: rest).foldl analyzeStep
        ⟨0, 0, [], [], [], [], [], e0.timestamp, e0.timestamp⟩).errorCount := rfl
    have hWc : (ParseLogs (e0 :: rest)).warningCount = ((e0 :: rest).foldl analyzeStep
        ⟨0, 0, [], [], [], [], [], e0.timestamp, e0.timestamp⟩).warningCount := rfl
    have hTot : (ParseLogs (e0 :: rest)).totalEntries = (e0 :: rest).length := rfl
    have hCE : (ParseLogs (e0 :: rest)).commonErrors = convertToPatterns
        ((e0 :: rest).foldl analyzeStep
          ⟨0, 0, [], [], [], [], [], e0.timestamp, e0.timestamp⟩).errorMap
        ((e0 :: rest).foldl analyzeStep
          ⟨0, 0, [], [], [], [], [], e0.timestamp, e0.timestamp⟩).errorExamples := rfl
    have hCW : (ParseLogs (e0 :: rest)).commonWarnings = convertToPatterns
        ((e0 :: rest).foldl analyzeStep
          ⟨0, 0, [], [], [], [], [], e0.timestamp, e0.timestamp⟩).warningMap
        ((e0 :: rest).foldl analyzeStep
          ⟨0, 0, [], [], [], [], [], e0.timestamp, e0.timestamp⟩).warningExamples := rfl
    have hpermE : List.Perm (((e0 :: rest).foldl analyzeStep
        ⟨0, 0, [], [], [], [], [], e0.timestamp, e0.timestamp⟩).errorMap.map Prod.fst)
          ((((e0 :: rest).filter isErrorLevel).map entryErrorKey).dedup) :=
      (List.perm_ext_iff_of_nodup hnodE (List.nodup_dedup _)).2
        (fun a => by rw [hmemE a, List.mem_dedup])
    have hlenE : ((e0 :: rest).foldl analyzeStep
        ⟨0, 0, [], [], [], [], [], e0.timestamp, e0.timestamp⟩).errorMap.length =
          (errorKeysOf (e0 :: rest)).length := by
      have h2 := hpermE.length_eq
      rwa [List.length_map] at h2
    have hpermW : List.Perm (((e0 :: rest).foldl analyzeStep
        ⟨0, 0, [], [], [], [], [], e0.timestamp, e0.timestamp⟩).warningMap.map Prod.fst)
          ((((e0 :: rest).filter isWarnLevel).map entryWarningKey).dedup) :=
      (List.perm_ext_iff_of_nodup hnodW (List.nodup_dedup _)).2
        (fun a => by rw [hmemW a, List.mem_dedup])
    have hlenW : ((e0 :: rest).foldl analyzeStep
        ⟨0, 0, [], [], [], [], [], e0.timestamp, e0.timestamp⟩).warningMap.length =
          (warningKeysOf (e0 :: rest)).length := by
      have h2 := hpermW.length_eq
      rwa [List.length_map] at h2
    refine ⟨?_, ?_, ?_, ?_, ?_⟩
    · rw [hEc, hWc, hTot, hec, hwc]
      exact filter_two_length_le isErrorLevel isWarnLevel isErrorLevel_not_warn (e0 :: rest)
    · rw [hCE, hEc, ← hsumE]
      exact patSum_convertToPatterns_le _ _
    · intro h10
      rw [hCE, hEc, ← hsumE]
      exact patSum_convertToPatterns_eq _ _ (by omega)
    · rw [hCW, hWc, ← hsumW]
      exact patSum_convertToPatterns_le _ _
    · intro h10
      rw [hCW, hWc, ← hsumW]
      exact patSum_convertToPatterns_eq _ _ (by omega)

/-- Four records: two identical errors, one info, one warning. -/
def c8logs : List LogEntry :=
  [⟨0, str "p", [], str "ERROR", str "failed to connect", []⟩,
   ⟨1, str "p", [], str "INFO", str "ok", []⟩,
   ⟨2, str "p", [], str "ERROR", str "failed to connect", []⟩,
   ⟨3, str "p", [], str "WARN", str "deprecated flag", []⟩]

/-- **C8** witness: on `c8logs` both classes have fewer than 10 distinct keys,
and the retained pattern counts equal the class counts exactly. -/
theorem c8_analyzer_counts_witness :
    ((errorKeysOf c8logs).length < 10 ∧ (warningKeysOf c8logs).length < 10) ∧
    patSum (ParseLogs c8logs).commonErrors = (ParseLogs c8logs).errorCount ∧
    patSum (ParseLogs c8logs).commonWarnings = (ParseLogs c8logs).warningCount :=
  ⟨⟨by decide, by decide⟩,
   (c8_analyzer_counts c8logs).2.2.1 (by decide),
   (c8_analyzer_counts c8logs).2.2.2.2 (by decide)⟩

end KubeAI
